import Mathlib

/-!
Verification of the incremental release-mirroring engine
(`mirror_github_releases.py`).

The Python source is shallowly embedded: Python dicts become ordered
association lists (`alookup` / `aset` mirror dict lookup and in-place
update-or-append insertion), exceptions become explicit outcome values,
and the network / filesystem environment is passed in explicitly
(an `RunEnv` of upload/download outcomes, a `FileState` per ledger file).
Timestamps are integers (the code normalises to UTC and compares
`datetime.timestamp()` values, a monotone embedding into numbers).
-/

namespace Mirror

/-! ### Python dict model: ordered association lists -/

def alookup {α : Type} (k : String) : List (String × α) → Option α
  | [] => none
  | (k', v) :: rest => if k' = k then some v else alookup k rest

def aset {α : Type} (k : String) (v : α) : List (String × α) → List (String × α)
  | [] => [(k, v)]
  | (k', v') :: rest => if k' = k then (k, v) :: rest else (k', v') :: aset k v rest

/-- Python `dict.setdefault(k, v)`. -/
def asetdefault {α : Type} (k : String) (v : α) (m : List (String × α)) :
    List (String × α) :=
  if (alookup k m).isSome then m else aset k v m

theorem alookup_aset {α : Type} (k k' : String) (v : α) (m : List (String × α)) :
    alookup k (aset k' v m) = if k' = k then some v else alookup k m := by
  induction m with
  | nil => simp [alookup, aset]
  | cons hd tl ih =>
    obtain ⟨k₀, v₀⟩ := hd
    by_cases h₀ : k₀ = k'
    · subst h₀
      by_cases h₁ : k₀ = k <;> simp [alookup, aset, h₁]
    · by_cases h₁ : k₀ = k
      · subst h₁
        simp [alookup, aset, h₀, Ne.symm h₀]
      · simp [alookup, aset, h₀, h₁, ih]

theorem alookup_asetdefault_of_isSome {α : Type} (k : String) (v : α)
    (m : List (String × α)) (h : (alookup k m).isSome) :
    asetdefault k v m = m := by
  simp [asetdefault, h]

theorem alookup_aset_isSome_mono {α : Type} (k k' : String) (v : α)
    (m : List (String × α)) (h : (alookup k m).isSome) :
    (alookup k (aset k' v m)).isSome := by
  rw [alookup_aset]
  by_cases hk : k' = k <;> simp [hk, h]

theorem alookup_asetdefault_isSome_mono {α : Type} (k k' : String) (v : α)
    (m : List (String × α)) (h : (alookup k m).isSome) :
    (alookup k (asetdefault k' v m)).isSome := by
  unfold asetdefault
  by_cases hs : (alookup k' m).isSome <;> simp [hs, h, alookup_aset_isSome_mono]

theorem alookup_asetdefault_self_isSome {α : Type} (k : String) (v : α)
    (m : List (String × α)) :
    (alookup k (asetdefault k v m)).isSome := by
  unfold asetdefault
  by_cases hs : (alookup k m).isSome
  · simp [hs]
  · simp [hs, alookup_aset]

/-! ### Data model (`synced_data.json`) -/

/-- One entry of `synced_data['assets'][source_id]`. -/
structure AssetRecord where
  name : String
  size : Nat
  updated_at : Option Int
  synced_at : Nat
deriving DecidableEq

/-- One entry of `synced_data['source_codes'][tag]`. -/
structure SourceCodeRecord where
  exists_flag : Bool
  synced_at : Nat
deriving DecidableEq

/-- One entry of `synced_data['releases']`. -/
structure ReleaseRecord where
  tag_name : String
  fully_synced_at : Nat
deriving DecidableEq

/-- The sync ledger persisted in `synced_data.json`. -/
structure SyncedData where
  releases : List (String × ReleaseRecord)
  assets : List (String × List (String × AssetRecord))
  source_codes : List (String × List (String × SourceCodeRecord))
deriving DecidableEq

/-- `{'releases': {}, 'assets': {}, 'source_codes': {}}`. -/
def empty_synced_data : SyncedData := ⟨[], [], []⟩

/-! ### State Store: `load_synced_data` -/

/-- Observable state of one ledger file on disk: absent, present but failing
`json.load` (or unreadable), or present with valid ledger content. -/
inductive FileState
  | absent
  | invalid
  | valid (d : SyncedData)
deriving DecidableEq

/-- `os.path.exists`. -/
def fs_exists : FileState → Bool
  | .absent => false
  | _ => true

/-- The inner `_load`: `open` + `json.load`, raising on absence or bad content. -/
def read_json : FileState → Except Unit SyncedData
  | .absent => .error ()
  | .invalid => .error ()
  | .valid d => .ok d

/-- `load_synced_data()`, lines 28-44.  The second component records which
files were opened by `_load`, in order ("primary" / "backup"), so that
"the backup is consulted" is observable in the embedding.  The function is
total: every exception raised by `_load` is caught, which is the code's
"never raises" behaviour. -/
def load_synced_data (primary backup : FileState) : SyncedData × List String :=
  if fs_exists primary then
    match read_json primary with
    | .ok d => (d, ["primary"])
    | .error _ =>
      if fs_exists backup then
        match read_json backup with
        | .ok d => (d, ["primary", "backup"])
        | .error _ => (empty_synced_data, ["primary", "backup"])
      else (empty_synced_data, ["primary"])
  else (empty_synced_data, [])

/-! ### State Store: `save_synced_data` -/

/-- Content of a file on disk: a completely written ledger document, or the
debris of a write that failed partway through. -/
inductive FileData
  | complete (d : SyncedData)
  | truncated
deriving DecidableEq

/-- The three files `save_synced_data` touches. -/
structure DiskState where
  primary : Option FileData
  backup : Option FileData
  temp : Option FileData
deriving DecidableEq

/-- The step of `save_synced_data` at which an exception is raised, if any. -/
inductive SaveStep
  | writeTemp
  | rotateBackup
  | promote
deriving DecidableEq

/-- The `except` handler of `save_synced_data`: remove the temp file when it
exists (a no-op otherwise), and swallow the exception. -/
def save_cleanup (ds : DiskState) : DiskState := { ds with temp := none }

/-- `save_synced_data(data)`, lines 47-59, as a disk-state transformer.
`failAt` selects which step (if any) raises.  A failing `json.dump` leaves a
truncated temp file behind, which the handler then removes; `os.replace` is
atomic, so its failure leaves the disk unchanged.  The result is the final
disk state; `save_states` below additionally exposes every intermediate
state. -/
def save_synced_data (ds : DiskState) (d : SyncedData) (failAt : Option SaveStep) :
    DiskState :=
  if failAt = some .writeTemp then
    save_cleanup { ds with temp := some .truncated }
  else
    let ds1 : DiskState := { ds with temp := some (.complete d) }
    if failAt = some .rotateBackup then
      save_cleanup ds1
    else
      let ds2 : DiskState :=
        if ds1.primary.isSome then
          { ds1 with backup := ds1.primary, primary := none }
        else ds1
      if failAt = some .promote then
        save_cleanup ds2
      else
        { ds2 with primary := ds2.temp, temp := none }

/-- Every disk state observable during `save_synced_data`, in order, the
final state last. -/
def save_states (ds : DiskState) (d : SyncedData) (failAt : Option SaveStep) :
    List DiskState :=
  if failAt = some .writeTemp then
    [{ ds with temp := some .truncated },
     save_cleanup { ds with temp := some .truncated }]
  else
    let ds1 : DiskState := { ds with temp := some (.complete d) }
    if failAt = some .rotateBackup then
      [ds1, save_cleanup ds1]
    else
      let ds2 : DiskState :=
        if ds1.primary.isSome then
          { ds1 with backup := ds1.primary, primary := none }
        else ds1
      if failAt = some .promote then
        [ds1, ds2, save_cleanup ds2]
      else
        [ds1, ds2, { ds2 with primary := ds2.temp, temp := none }]

theorem save_states_last (ds : DiskState) (d : SyncedData) (failAt : Option SaveStep) :
    (save_states ds d failAt).getLast? = some (save_synced_data ds d failAt) := by
  unfold save_states save_synced_data
  by_cases h1 : failAt = some SaveStep.writeTemp
  · simp [h1]
  · by_cases h2 : failAt = some SaveStep.rotateBackup
    · simp [h1, h2]
    · by_cases h3 : failAt = some SaveStep.promote <;> simp [h1, h2, h3]

/-! ### Claims C4, C9, C5 (State Store) -/

/-- **C4.** `load_synced_data` never raises (it is a total function into
`SyncedData`, all `_load` exceptions being caught): when the primary file's
content is invalid and the backup is valid, it returns the backup's
contents; when both primary and backup hold invalid content, it returns the
ledger with empty `releases` / `assets` / `source_codes` mappings. -/
theorem load_recovers_from_backup :
    (∀ d : SyncedData,
      (load_synced_data .invalid (.valid d)).1 = d) ∧
    (load_synced_data .invalid .invalid).1 = empty_synced_data ∧
    empty_synced_data.releases = [] ∧ empty_synced_data.assets = [] ∧
    empty_synced_data.source_codes = [] := by
  refine ⟨fun d => ?_, ?_, rfl, rfl, rfl⟩ <;>
    simp [load_synced_data, fs_exists, read_json, empty_synced_data]

/-- **C9.** When the primary ledger file is absent, `load_synced_data`
returns the empty ledger and opens no file at all — in particular the backup
is not consulted, whatever its content; and the backup is opened only when
the primary file exists and loading it fails. -/
theorem load_absent_primary_skips_backup :
    (∀ backup : FileState,
      load_synced_data .absent backup = (empty_synced_data, [])) ∧
    (∀ primary backup : FileState,
      "backup" ∈ (load_synced_data primary backup).2 →
        fs_exists primary = true ∧ read_json primary = .error ()) := by
  constructor
  · intro backup
    simp [load_synced_data, fs_exists]
  · intro primary backup h
    cases primary with
    | absent => simp [load_synced_data, fs_exists] at h
    | invalid =>
      refine ⟨rfl, rfl⟩
    | valid d => simp [load_synced_data, fs_exists, read_json] at h

/-- **C5.** `save_synced_data` writes the temp file first and rotates /
promotes only afterwards: (1) at no observable point does a partially
written file occupy the primary path (assuming it did not to begin with);
(2) if the temp write itself fails, primary and backup are untouched and
only the temp file is cleaned up; (3) on any failure the temp file is
removed, and the function is total — the exception is swallowed, not
propagated; (4) on success the completely written document occupies the
primary path, the old primary survives at the backup path, and the temp
file is gone. -/
theorem save_atomic (ds : DiskState) (d : SyncedData) (failAt : Option SaveStep)
    (h : ds.primary ≠ some .truncated) :
    (∀ s ∈ save_states ds d failAt, s.primary ≠ some FileData.truncated) ∧
    (failAt = some .writeTemp →
      save_synced_data ds d failAt = { ds with temp := none }) ∧
    (failAt ≠ none → (save_synced_data ds d failAt).temp = none) ∧
    (failAt = none →
      save_synced_data ds d failAt =
        ⟨some (.complete d), if ds.primary.isSome then ds.primary else ds.backup,
         none⟩) := by
  refine ⟨?_, ?_, ?_, ?_⟩
  · intro s hs
    unfold save_states at hs
    by_cases hp : ds.primary.isSome <;>
      split_ifs at hs <;>
      simp only [save_cleanup, hp, if_true, if_false, List.mem_cons,
        List.mem_singleton, List.not_mem_nil, or_false] at hs <;>
      (rcases hs with rfl | rfl | rfl) <;> simp_all
  · intro h1
    simp [save_synced_data, h1, save_cleanup]
  · intro hne
    unfold save_synced_data
    by_cases h1 : failAt = some SaveStep.writeTemp
    · simp [h1, save_cleanup]
    · by_cases h2 : failAt = some SaveStep.rotateBackup
      · simp [h1, h2, save_cleanup]
      · by_cases h3 : failAt = some SaveStep.promote
        · simp [h1, h2, h3, save_cleanup]
        · exfalso
          cases hfa : failAt with
          | none => exact hne hfa
          | some s => cases s <;> simp_all
  · intro h0
    subst h0
    by_cases hp : ds.primary.isSome
    · simp [save_synced_data, hp]
    · simp [save_synced_data, hp, Option.not_isSome_iff_eq_none.mp hp]

/-- Witness for C5 at a concrete disk state and failure point. -/
theorem save_atomic_witness :
    (∀ s ∈ save_states ⟨some (.complete empty_synced_data), none, none⟩
        empty_synced_data (some .promote), s.primary ≠ some FileData.truncated) ∧
    (save_synced_data ⟨some (.complete empty_synced_data), none, none⟩
        empty_synced_data (some .promote)).temp = none := by
  have h := save_atomic ⟨some (.complete empty_synced_data), none, none⟩
    empty_synced_data (some .promote) (by simp)
  exact ⟨h.1, h.2.2.1 (by simp)⟩

/-! ### Descriptors -/

/-- Source-side asset descriptor (fields of a PyGithub `GitReleaseAsset`
that the engine reads). `updated_at` is the UTC timestamp, `none` when the
platform reports no last-modified instant. -/
structure SourceAsset where
  id : Nat
  name : String
  size : Nat
  content_type : Option String
  updated_at : Option Int
  browser_download_url : String
deriving DecidableEq

/-- Target-side asset descriptor (what `get_asset_info` reads). -/
structure TargetAsset where
  name : String
  size : Nat
  updated_at : Option Int
deriving DecidableEq

/-- Source release descriptor. -/
structure SourceRelease where
  id : Nat
  tag_name : String
  name : Option String
  body : Option String
  draft : Bool
  prerelease : Bool
  created_at : Int
  assets : List SourceAsset
deriving DecidableEq

/-! ### Change Detector (`sync_release_assets`, lines 187-209) -/

/-- `source_time > target_time` guarded by both timestamps being present:
the `elif source_info['updated_at'] and target_info['updated_at']` branch. -/
def time_gt : Option Int → Option Int → Bool
  | some s, some t => decide (t < s)
  | _, _ => false

/-- `asset_key = f"{asset_name}_{asset.size}"`. -/
def asset_key (name : String) (size : Nat) : String :=
  name ++ "_" ++ toString size

/-- `target_assets = {a.name: a for a in target_release.get_assets()}` —
a Python dict comprehension keeps the last asset of each name. -/
def dict_by_name (l : List TargetAsset) (n : String) : Option TargetAsset :=
  l.foldl (fun acc a => if a.name = n then some a else acc) none

/-- The per-asset change decision of `sync_release_assets`:
`need_sync` as computed by lines 187-207.  `ledger_assets` is
`synced_data['assets'][source_id]`, `target_asset` is
`target_assets.get(asset_name)`. -/
def need_sync (ledger_assets : List (String × AssetRecord))
    (a : SourceAsset) (target_asset : Option TargetAsset) : Bool :=
  if (alookup (asset_key a.name a.size) ledger_assets).isNone then
    true
  else
    match target_asset with
    | none => true
    | some t =>
      if a.size ≠ t.size then true
      else time_gt a.updated_at t.updated_at

/-- Modelled from the spec's §4.2 decision algorithm, rule by rule, for
comparison with the code's `need_sync`: (1) no ledger entry → sync;
(2) no matching artifact in the live target listing → sync; (3) byte sizes
differ → sync; (4) both timestamps present and source strictly later →
sync; (5) otherwise no sync. -/
def spec_need_sync (ledger_assets : List (String × AssetRecord))
    (a : SourceAsset) (target_asset : Option TargetAsset) : Bool :=
  if alookup (asset_key a.name a.size) ledger_assets = none then true
  else if target_asset = none then true
  else
    match target_asset with
    | none => true
    | some t =>
      if a.size ≠ t.size then true
      else
        match a.updated_at, t.updated_at with
        | some s, some tt => decide (tt < s)
        | _, _ => false

/-- **C1.** The change decision of `sync_release_assets` evaluates exactly
the five spec rules in order with short-circuiting (`need_sync` coincides
with the rule-by-rule `spec_need_sync` on every input); in particular, when
the ledger entry exists, the target asset of that name is present with
matching size, and both timestamps are present with the target's not
earlier than the source's, the decision is "no sync". -/
theorem need_sync_follows_spec :
    (∀ ledger_assets a target_asset,
      need_sync ledger_assets a target_asset =
        spec_need_sync ledger_assets a target_asset) ∧
    (∀ ledger_assets a (t : TargetAsset) (s u : Int),
      (alookup (asset_key a.name a.size) ledger_assets).isSome →
      a.size = t.size →
      a.updated_at = some s → t.updated_at = some u → s ≤ u →
      need_sync ledger_assets a (some t) = false) := by
  constructor
  · intro ledger_assets a target_asset
    unfold need_sync spec_need_sync
    cases hl : alookup (asset_key a.name a.size) ledger_assets with
    | none => simp
    | some rec =>
      simp only [Option.isNone_some, Bool.false_eq_true, if_false,
        reduceCtorEq]
      cases target_asset with
      | none => simp
      | some t =>
        simp only [reduceCtorEq, if_false]
        by_cases hsz : a.size ≠ t.size
        · simp [hsz]
        · simp only [hsz, if_false]
          unfold time_gt
          cases a.updated_at <;> cases t.updated_at <;> rfl
  · intro ledger_assets a t s u hl hsz hs hu hle
    unfold need_sync
    obtain ⟨rec, hrec⟩ := Option.isSome_iff_exists.mp hl
    simp only [hrec, Option.isNone_some, Bool.false_eq_true, if_false]
    simp [hsz, time_gt, hs, hu]
    omega

/-- Witness for C1's second part: name and size match, target timestamp
equal to the source's, decision "no sync". -/
theorem need_sync_follows_spec_witness :
    need_sync [("a_5", ⟨"a", 5, some 7, 0⟩)]
      ⟨1, "a", 5, none, some 7, "u"⟩ (some ⟨"a", 5, some 7⟩) = false := by
  exact need_sync_follows_spec.2 [("a_5", ⟨"a", 5, some 7, 0⟩)]
    ⟨1, "a", 5, none, some 7, "u"⟩ ⟨"a", 5, some 7⟩ 7 7
    (by decide) rfl rfl rfl le_rfl

/-! ### Injectivity of the `f"{name}_{size}"` identity key -/

/-- Numeric value of a decimal digit character. -/
def digit_val (c : Char) : Nat := c.toNat - 48

/-- Decimal value of a digit string (left fold, most significant first). -/
def parse_digits (l : List Char) : Nat :=
  l.foldl (fun acc c => acc * 10 + digit_val c) 0

theorem parse_digits_append (l : List Char) (c : Char) :
    parse_digits (l ++ [c]) = (parse_digits l) * 10 + digit_val c := by
  simp [parse_digits, List.foldl_append]

theorem digit_val_digitChar : ∀ m, m < 10 → digit_val (Nat.digitChar m) = m := by
  decide

theorem toDigitsCore_shift (b : Nat) :
    ∀ (fuel n : Nat) (acc : List Char),
      Nat.toDigitsCore b fuel n acc = Nat.toDigitsCore b fuel n [] ++ acc := by
  intro fuel
  induction fuel with
  | zero => intro n acc; simp [Nat.toDigitsCore]
  | succ f ih =>
    intro n acc
    simp only [Nat.toDigitsCore]
    by_cases h : n / b = 0
    · simp [h]
    · simp only [h, if_false]
      rw [ih (n / b) (Nat.digitChar (n % b) :: acc),
        ih (n / b) [Nat.digitChar (n % b)]]
      simp

theorem parse_toDigitsCore :
    ∀ (fuel n : Nat), n < fuel →
      parse_digits (Nat.toDigitsCore 10 fuel n []) = n := by
  intro fuel
  induction fuel with
  | zero => intro n hn; omega
  | succ f ih =>
    intro n hn
    simp only [Nat.toDigitsCore]
    by_cases h : n / 10 = 0
    · have hn10 : n < 10 := by omega
      simp [h, parse_digits, Nat.mod_eq_of_lt hn10, digit_val_digitChar n hn10]
    · have hpos : 0 < n := by
        rcases Nat.eq_zero_or_pos n with h0 | h0
        · exact absurd (by simp [h0]) h
        · exact h0
      have hdiv : n / 10 < n := Nat.div_lt_self hpos (by omega)
      simp only [h, if_false]
      rw [toDigitsCore_shift, parse_digits_append, ih (n / 10) (by omega),
        digit_val_digitChar (n % 10) (Nat.mod_lt n (by omega))]
      omega

theorem parse_digits_toString (n : Nat) :
    parse_digits (toString n).data = n := by
  have hdata : (toString n).data = Nat.toDigitsCore 10 (n + 1) n [] := rfl
  rw [hdata]
  exact parse_toDigitsCore (n + 1) n (Nat.lt_succ_self n)

/-- `str(size)` is injective, hence so is the `name_size` key in its size
component: this is the invariant behind C7. -/
theorem asset_key_size_inj (name : String) (s1 s2 : Nat)
    (h : asset_key name s1 = asset_key name s2) : s1 = s2 := by
  unfold asset_key at h
  have hd := congrArg String.data h
  simp only [String.data_append] at hd
  have htail : (toString s1).data = (toString s2).data :=
    List.append_cancel_left hd
  have := congrArg parse_digits htail
  rwa [parse_digits_toString, parse_digits_toString] at this

/-! ### Run model: environment, state, events

The engine's interactions with the outside world are driven by a `RunEnv`:
for each (tag, artifact name, attempt index) an upload outcome, for each
URL whether the streamed download succeeds, and for each tag whether
release creation succeeds.  The run threads a `RunState`: the in-memory
ledger, the live per-tag target asset listings, a transfer counter, a
save counter, and an event trace (release begin / artifact processing /
completed transfer / ledger save / external commit). -/

/-- Outcome of one `upload_asset` call: a successful upload reporting the
stored size and last-modified instant, a `None` return, a 422 conflict, or
any other exception. -/
inductive UploadOutcome
  | ok (size : Nat) (updated_at : Option Int)
  | retNone
  | conflict
  | err
deriving DecidableEq

def is_ok : UploadOutcome → Bool
  | .ok _ _ => true
  | _ => false

structure RunEnv where
  retry_count : Nat
  upload : String → String → Nat → UploadOutcome
  download_ok : String → Bool
  create_ok : String → Bool

/-- Observable events of one run, each tagged with the source release id. -/
inductive Event
  | beginRelease (id : Nat) (created_at : Int)
  | codeArtifact (id : Nat) (filename : String)
  | assetArtifact (id : Nat) (asset_name : String)
  | transferComplete (id : Nat) (artifact_name : String)
  | savePoint (id : Nat)
  | commitLedger (id : Nat)
deriving DecidableEq

def Event.rid : Event → Nat
  | .beginRelease i _ => i
  | .codeArtifact i _ => i
  | .assetArtifact i _ => i
  | .transferComplete i _ => i
  | .savePoint i => i
  | .commitLedger i => i

def Event.isBegin : Event → Bool
  | .beginRelease _ _ => true
  | _ => false

def Event.isCodeArtifact : Event → Bool
  | .codeArtifact _ _ => true
  | _ => false

def Event.isAssetArtifact : Event → Bool
  | .assetArtifact _ _ => true
  | _ => false

def Event.isTransfer : Event → Bool
  | .transferComplete _ _ => true
  | _ => false

def Event.isCommit : Event → Bool
  | .commitLedger _ => true
  | _ => false

/-- `created_at` carried by a `beginRelease` event. -/
def Event.beginTime : Event → Option Int
  | .beginRelease _ c => some c
  | _ => none

structure RunState where
  synced_data : SyncedData
  target : List (String × List TargetAsset)
  transfers : Nat
  saves : Nat
  trace : List Event
deriving DecidableEq

def RunState.emit (st : RunState) (e : Event) : RunState :=
  { st with trace := st.trace ++ [e] }

/-- A `save_synced_data(synced_data)` call inside the run: persists the
in-memory ledger (disk effects are modelled separately, in `DiskState`). -/
def RunState.doSave (st : RunState) (rid : Nat) : RunState :=
  { st with saves := st.saves + 1, trace := st.trace ++ [.savePoint rid] }

/-! ### `delete_existing_asset` and `retry_upload` (lines 73-106) -/

/-- `delete_existing_asset`: walks the live listing and deletes the first
asset carrying the name. -/
def delete_existing_asset (asset_name : String) : List TargetAsset → List TargetAsset
  | [] => []
  | a :: rest =>
    if a.name = asset_name then rest
    else a :: delete_existing_asset asset_name rest

/-- Result of `retry_upload`: the uploaded descriptor (or `None` after
exhaustion), the live target listing afterwards, and how many upload
attempts were made. -/
structure UploadRun where
  uploaded : Option TargetAsset
  listing : List TargetAsset
  attempts : Nat
deriving DecidableEq

/-- The attempt loop of `retry_upload`: each attempt first deletes any
existing same-named asset, then uploads; success appends the uploaded
asset to the live listing and returns it; a 422 conflict deletes again and
retries; `None` returns and other failures retry after the delay. -/
def retry_upload_go (env : RunEnv) (tag asset_name : String) :
    Nat → Nat → List TargetAsset → UploadRun
  | 0, attempt, listing => ⟨none, listing, attempt⟩
  | fuel + 1, attempt, listing =>
    let l1 := delete_existing_asset asset_name listing
    match env.upload tag asset_name attempt with
    | .ok size upd =>
      ⟨some ⟨asset_name, size, upd⟩, l1 ++ [⟨asset_name, size, upd⟩], attempt + 1⟩
    | .retNone => retry_upload_go env tag asset_name fuel (attempt + 1) l1
    | .conflict =>
      retry_upload_go env tag asset_name fuel (attempt + 1)
        (delete_existing_asset asset_name l1)
    | .err => retry_upload_go env tag asset_name fuel (attempt + 1) l1

/-- `retry_upload(target_release, file_path, name, content_type)`:
`for attempt in range(RETRY_COUNT)`. -/
def retry_upload (env : RunEnv) (tag asset_name : String)
    (listing : List TargetAsset) : UploadRun :=
  retry_upload_go env tag asset_name env.retry_count 0 listing

/-! ### `sync_source_code` (lines 110-163) -/

/-- The two fixed archive filenames of a tag. -/
def source_code_filenames (tag : String) : List String :=
  ["SourceCode_" ++ tag ++ ".zip", "SourceCode_" ++ tag ++ ".tar.gz"]

/-- The `source_files` dict: filename ↦ download URL, zip first. -/
def source_code_files (owner repo tag : String) : List (String × String) :=
  [("SourceCode_" ++ tag ++ ".zip",
    "https://github.com/" ++ owner ++ "/" ++ repo ++ "/archive/refs/tags/"
      ++ tag ++ ".zip"),
   ("SourceCode_" ++ tag ++ ".tar.gz",
    "https://github.com/" ++ owner ++ "/" ++ repo ++ "/archive/refs/tags/"
      ++ tag ++ ".tar.gz")]

theorem source_code_files_names (owner repo tag : String) :
    (source_code_files owner repo tag).map Prod.fst = source_code_filenames tag :=
  rfl

/-- The per-file loop of `sync_source_code`.  `existing` is the snapshot of
target asset names taken once at function entry; the live listing is read
from the state at each transfer.  A file present in the snapshot is
skipped (recording it in the ledger if missing there, with a save); a file
absent from the snapshot is downloaded and uploaded, and only a completed
upload records the ledger entry, saves, and sets the change flag. -/
def sync_code_go (env : RunEnv) (rid : Nat) (tag : String) (now : Nat)
    (existing : List String) :
    List (String × String) → Bool → RunState → Bool × RunState
  | [], has_changes, st => (has_changes, st)
  | (filename, url) :: rest, has_changes, st =>
    let st1 := st.emit (.codeArtifact rid filename)
    if filename ∈ existing then
      let cm := (alookup tag st1.synced_data.source_codes).getD []
      if (alookup filename cm).isSome then
        sync_code_go env rid tag now existing rest has_changes st1
      else
        let sd := { st1.synced_data with
          source_codes :=
            aset tag (aset filename ⟨true, now⟩ cm) st1.synced_data.source_codes }
        sync_code_go env rid tag now existing rest has_changes
          (({ st1 with synced_data := sd }).doSave rid)
    else
      let st2 := { st1 with transfers := st1.transfers + 1 }
      if env.download_ok url then
        let listing := (alookup tag st2.target).getD []
        let r := retry_upload env tag filename listing
        let st3 := { st2 with target := aset tag r.listing st2.target }
        match r.uploaded with
        | some _ =>
          let cm := (alookup tag st3.synced_data.source_codes).getD []
          let sd := { st3.synced_data with
            source_codes :=
              aset tag (aset filename ⟨true, now⟩ cm) st3.synced_data.source_codes }
          sync_code_go env rid tag now existing rest true
            ((({ st3 with synced_data := sd }).doSave rid).emit
              (.transferComplete rid filename))
        | none => sync_code_go env rid tag now existing rest has_changes st3
      else
        sync_code_go env rid tag now existing rest has_changes st2

/-- `sync_source_code(tag_name, target_release, synced_data)`: snapshots the
existing target asset names, `setdefault`s the tag's source-code map, then
runs the per-file loop; returns whether any file was actually transferred. -/
def sync_source_code (env : RunEnv) (owner repo : String) (rid : Nat) (now : Nat)
    (tag : String) (st : RunState) : Bool × RunState :=
  let listing := (alookup tag st.target).getD []
  let existing := listing.map TargetAsset.name
  let st1 := { st with synced_data := { st.synced_data with
    source_codes := asetdefault tag [] st.synced_data.source_codes } }
  sync_code_go env rid tag now existing (source_code_files owner repo tag) false st1

/-! ### `sync_release_assets` (lines 167-240) -/

/-- Ledger record written after a completed asset upload: identity fields
from the *uploaded* descriptor (`actual_info`), key from the source asset. -/
def record_of_upload (asset_name : String) (u : TargetAsset) (now : Nat) :
    AssetRecord :=
  ⟨asset_name, u.size, u.updated_at, now⟩

/-- The per-asset loop of `sync_release_assets`.  `snap` is the listing
snapshot behind the `target_assets` dict taken once at function entry.
Each source asset is evaluated by `need_sync`; a required sync downloads
and uploads, and only a completed upload records the ledger entry
(under the `name_size` key of the source asset), saves, and sets the
change flag. -/
def sync_assets_go (env : RunEnv) (rid : Nat) (sid tag : String) (now : Nat)
    (snap : List TargetAsset) :
    List SourceAsset → Bool → RunState → Bool × RunState
  | [], has_changes, st => (has_changes, st)
  | a :: rest, has_changes, st =>
    let st1 := st.emit (.assetArtifact rid a.name)
    let ledger_assets := (alookup sid st1.synced_data.assets).getD []
    if need_sync ledger_assets a (dict_by_name snap a.name) then
      let st2 := { st1 with transfers := st1.transfers + 1 }
      if env.download_ok a.browser_download_url then
        let listing := (alookup tag st2.target).getD []
        let r := retry_upload env tag a.name listing
        let st3 := { st2 with target := aset tag r.listing st2.target }
        match r.uploaded with
        | some u =>
          let sd := { st3.synced_data with
            assets := aset sid
              (aset (asset_key a.name a.size) (record_of_upload a.name u now)
                ledger_assets)
              st3.synced_data.assets }
          sync_assets_go env rid sid tag now snap rest true
            ((({ st3 with synced_data := sd }).doSave rid).emit
              (.transferComplete rid a.name))
        | none => sync_assets_go env rid sid tag now snap rest has_changes st3
      else
        sync_assets_go env rid sid tag now snap rest has_changes st2
    else
      sync_assets_go env rid sid tag now snap rest has_changes st1

/-- `sync_release_assets(source_release, target_release, synced_data)`. -/
def sync_release_assets (env : RunEnv) (now : Nat) (r : SourceRelease)
    (st : RunState) : Bool × RunState :=
  let sid := toString r.id
  let st1 := { st with synced_data := { st.synced_data with
    assets := asetdefault sid [] st.synced_data.assets } }
  let snap := (alookup r.tag_name st1.target).getD []
  sync_assets_go env r.id sid r.tag_name now snap r.assets false st1

/-! ### Orchestrator (`get_or_create_release`, `main`, lines 276-407) -/

/-- `get_or_create_release`: find the target release by tag; otherwise
create it (tag ref plus release, collapsing the platform calls into one
`create_ok` outcome; a fresh release owns no assets).  On creation failure
the second listing pass finds nothing new in this single-writer model, so
the release is reported unavailable and skipped by the caller. -/
def get_or_create_release (env : RunEnv) (r : SourceRelease) (st : RunState) :
    Bool × RunState :=
  if (alookup r.tag_name st.target).isSome then (true, st)
  else if env.create_ok r.tag_name then
    (true, { st with target := aset r.tag_name [] st.target })
  else (false, st)

/-- The per-release body of `main`'s loop: get or create the target
release (skipping the release on failure), sync source-code archives, then
binary assets, mark the release fully synced (with a save), and trigger
the external ledger commit (`push_after_version`) exactly when either sync
reported a completed transfer. -/
def process_release (env : RunEnv) (owner repo : String) (now : Nat)
    (r : SourceRelease) (st : RunState) : RunState :=
  let st0 := st.emit (.beginRelease r.id r.created_at)
  let g := get_or_create_release env r st0
  if g.1 then
    let pc := sync_source_code env owner repo r.id now r.tag_name g.2
    let pa := sync_release_assets env now r pc.2
    let sd := { pa.2.synced_data with
      releases :=
        aset (toString r.id) ⟨r.tag_name, now⟩ pa.2.synced_data.releases }
    let st4 := ({ pa.2 with synced_data := sd }).doSave r.id
    if pc.1 || pa.1 then st4.emit (.commitLedger r.id) else st4
  else g.2

/-- `sorted(source_repo.get_releases(), key=lambda r: r.created_at)` —
Python's stable sort by creation time, modelled by insertion sort. -/
def releaseLE (a b : SourceRelease) : Prop := a.created_at ≤ b.created_at

instance : DecidableRel releaseLE := fun a b => Int.decLe a.created_at b.created_at

def sort_releases (l : List SourceRelease) : List SourceRelease :=
  List.insertionSort releaseLE l

/-- The release loop of `main`, over the releases sorted by creation time.
Release listing, ledger load and the final cleanup are outside this loop. -/
def run_main (env : RunEnv) (owner repo : String) (now : Nat)
    (releases : List SourceRelease) (st : RunState) : RunState :=
  (sort_releases releases).foldl
    (fun st r => process_release env owner repo now r st) st

/-- State at `main` entry for one run: freshly loaded ledger, current
target listings, zero transfers/saves, empty trace. -/
def init_run_state (sd : SyncedData)
    (target : List (String × List TargetAsset)) : RunState :=
  ⟨sd, target, 0, 0, []⟩

/-! ### Claim C6: bounded retries -/

theorem retry_upload_go_attempts_le (env : RunEnv) (tag asset_name : String) :
    ∀ (fuel attempt : Nat) (listing : List TargetAsset),
      (retry_upload_go env tag asset_name fuel attempt listing).attempts ≤
        attempt + fuel := by
  intro fuel
  induction fuel with
  | zero => intro attempt listing; simp [retry_upload_go]
  | succ f ih =>
    intro attempt listing
    simp only [retry_upload_go]
    cases henv : env.upload tag asset_name attempt with
    | ok s u => simp
    | retNone => exact le_trans (ih _ _) (by omega)
    | conflict => exact le_trans (ih _ _) (by omega)
    | err => exact le_trans (ih _ _) (by omega)

theorem retry_upload_go_exhaust (env : RunEnv) (tag asset_name : String) :
    ∀ (fuel attempt : Nat) (listing : List TargetAsset),
      (∀ k, attempt ≤ k → k < attempt + fuel →
        is_ok (env.upload tag asset_name k) = false) →
      (retry_upload_go env tag asset_name fuel attempt listing).uploaded = none ∧
      (retry_upload_go env tag asset_name fuel attempt listing).attempts =
        attempt + fuel := by
  intro fuel
  induction fuel with
  | zero => intro attempt listing _; simp [retry_upload_go]
  | succ f ih =>
    intro attempt listing h
    have h0 : is_ok (env.upload tag asset_name attempt) = false :=
      h attempt le_rfl (by omega)
    simp only [retry_upload_go]
    cases henv : env.upload tag asset_name attempt with
    | ok s u => rw [henv] at h0; simp [is_ok] at h0
    | retNone =>
      have hthis := ih (attempt + 1) (delete_existing_asset asset_name listing)
        (fun k hk hk' => h k (by omega) (by omega))
      refine ⟨hthis.1, ?_⟩
      have h2 := hthis.2
      show (retry_upload_go env tag asset_name f (attempt + 1)
        (delete_existing_asset asset_name listing)).attempts = attempt + (f + 1)
      omega
    | conflict =>
      have hthis := ih (attempt + 1)
        (delete_existing_asset asset_name (delete_existing_asset asset_name listing))
        (fun k hk hk' => h k (by omega) (by omega))
      refine ⟨hthis.1, ?_⟩
      have h2 := hthis.2
      show (retry_upload_go env tag asset_name f (attempt + 1)
        (delete_existing_asset asset_name
          (delete_existing_asset asset_name listing))).attempts = attempt + (f + 1)
      omega
    | err =>
      have hthis := ih (attempt + 1) (delete_existing_asset asset_name listing)
        (fun k hk hk' => h k (by omega) (by omega))
      refine ⟨hthis.1, ?_⟩
      have h2 := hthis.2
      show (retry_upload_go env tag asset_name f (attempt + 1)
        (delete_existing_asset asset_name listing)).attempts = attempt + (f + 1)
      omega

theorem retry_upload_go_first_success (env : RunEnv) (tag asset_name : String) :
    ∀ (fuel attempt : Nat) (listing : List TargetAsset) (j : Nat) (s : Nat)
      (u : Option Int),
      attempt ≤ j → j < attempt + fuel →
      (∀ k, attempt ≤ k → k < j → is_ok (env.upload tag asset_name k) = false) →
      env.upload tag asset_name j = .ok s u →
      (retry_upload_go env tag asset_name fuel attempt listing).uploaded =
        some ⟨asset_name, s, u⟩ ∧
      (retry_upload_go env tag asset_name fuel attempt listing).attempts = j + 1 := by
  intro fuel
  induction fuel with
  | zero => intro attempt listing j s u h1 h2; omega
  | succ f ih =>
    intro attempt listing j s u h1 h2 hfail hok
    simp only [retry_upload_go]
    by_cases hj : j = attempt
    · subst hj
      rw [hok]
      simp
    · have hfa : is_ok (env.upload tag asset_name attempt) = false :=
        hfail attempt le_rfl (by omega)
      cases henv : env.upload tag asset_name attempt with
      | ok s' u' => rw [henv] at hfa; simp [is_ok] at hfa
      | retNone =>
        exact ih (attempt + 1) _ j s u (by omega) (by omega)
          (fun k hk hk' => hfail k (by omega) hk') hok
      | conflict =>
        exact ih (attempt + 1) _ j s u (by omega) (by omega)
          (fun k hk hk' => hfail k (by omega) hk') hok
      | err =>
        exact ih (attempt + 1) _ j s u (by omega) (by omega)
          (fun k hk hk' => hfail k (by omega) hk') hok

theorem RunState.emit_synced_data (st : RunState) (e : Event) :
    (st.emit e).synced_data = st.synced_data := rfl

theorem RunState.emit_target (st : RunState) (e : Event) :
    (st.emit e).target = st.target := rfl

theorem RunState.emit_transfers (st : RunState) (e : Event) :
    (st.emit e).transfers = st.transfers := rfl

theorem RunState.emit_saves (st : RunState) (e : Event) :
    (st.emit e).saves = st.saves := rfl

theorem RunState.emit_trace (st : RunState) (e : Event) :
    (st.emit e).trace = st.trace ++ [e] := rfl

theorem RunState.doSave_synced_data (st : RunState) (rid : Nat) :
    (st.doSave rid).synced_data = st.synced_data := rfl

theorem RunState.doSave_target (st : RunState) (rid : Nat) :
    (st.doSave rid).target = st.target := rfl

theorem RunState.doSave_transfers (st : RunState) (rid : Nat) :
    (st.doSave rid).transfers = st.transfers := rfl

theorem RunState.doSave_trace (st : RunState) (rid : Nat) :
    (st.doSave rid).trace = st.trace ++ [.savePoint rid] := rfl

/-- After exhausted retries for asset `a`, the per-asset loop leaves the
ledger untouched and proceeds to the remaining assets. -/
theorem sync_assets_go_failed_step (env : RunEnv) (rid : Nat) (sid tag : String)
    (now : Nat) (snap : List TargetAsset) (a : SourceAsset)
    (rest : List SourceAsset) (has : Bool) (st : RunState)
    (hfail : ∀ k, k < env.retry_count → is_ok (env.upload tag a.name k) = false) :
    ∃ st', sync_assets_go env rid sid tag now snap (a :: rest) has st =
        sync_assets_go env rid sid tag now snap rest has st' ∧
      st'.synced_data = st.synced_data := by
  have hnone : ∀ L, (retry_upload env tag a.name L).uploaded = none :=
    fun L => (retry_upload_go_exhaust env tag a.name env.retry_count 0 L
      (fun k _ hk' => hfail k (by omega))).1
  simp only [sync_assets_go, RunState.emit_synced_data]
  by_cases hns : need_sync ((alookup sid st.synced_data.assets).getD [])
      a (dict_by_name snap a.name) = true
  · simp only [hns, if_true]
    by_cases hdl : env.download_ok a.browser_download_url = true
    · simp only [hdl, if_true]
      split
      · rename_i u heq
        rw [hnone] at heq
        simp at heq
      · exact ⟨_, rfl, rfl⟩
    · rw [if_neg hdl]
      exact ⟨_, rfl, rfl⟩
  · rw [if_neg hns]
    exact ⟨_, rfl, rfl⟩

/-- **C6.** `retry_upload` makes at most `RETRY_COUNT` upload attempts and
returns the uploaded descriptor immediately at the first success; if every
attempt fails (conflict or otherwise), it returns failure after exactly
`RETRY_COUNT` attempts, and the asset loop then records no ledger entry
for that artifact and continues with the next artifact. -/
theorem retry_upload_bounded (env : RunEnv) (tag asset_name : String)
    (listing : List TargetAsset) :
    (retry_upload env tag asset_name listing).attempts ≤ env.retry_count ∧
    (∀ (j s : Nat) (u : Option Int), j < env.retry_count →
      (∀ k, k < j → is_ok (env.upload tag asset_name k) = false) →
      env.upload tag asset_name j = .ok s u →
      (retry_upload env tag asset_name listing).uploaded =
        some ⟨asset_name, s, u⟩ ∧
      (retry_upload env tag asset_name listing).attempts = j + 1) ∧
    ((∀ k, k < env.retry_count → is_ok (env.upload tag asset_name k) = false) →
      (retry_upload env tag asset_name listing).uploaded = none ∧
      (retry_upload env tag asset_name listing).attempts = env.retry_count) ∧
    (∀ (rid : Nat) (sid : String) (now : Nat) (snap : List TargetAsset)
      (a : SourceAsset) (rest : List SourceAsset) (has : Bool) (st : RunState),
      (∀ k, k < env.retry_count → is_ok (env.upload tag a.name k) = false) →
      ∃ st', sync_assets_go env rid sid tag now snap (a :: rest) has st =
          sync_assets_go env rid sid tag now snap rest has st' ∧
        st'.synced_data = st.synced_data) := by
  refine ⟨?_, ?_, ?_, ?_⟩
  · simpa using retry_upload_go_attempts_le env tag asset_name env.retry_count 0 listing
  · intro j s u hj hfail hok
    exact retry_upload_go_first_success env tag asset_name env.retry_count 0 listing
      j s u (by omega) (by omega) (fun k _ hk' => hfail k hk') hok
  · intro hfail
    simpa using retry_upload_go_exhaust env tag asset_name env.retry_count 0 listing
      (fun k _ hk' => hfail k (by omega))
  · intro rid sid now snap a rest has st hfail
    exact sync_assets_go_failed_step env rid sid tag now snap a rest has st hfail

/-- Witness for C6 at a concrete environment: success at the second
attempt is returned immediately (two attempts made), and an
always-conflicting upload exhausts all three attempts with no descriptor. -/
theorem retry_upload_bounded_witness :
    (retry_upload ⟨3, fun _ _ k => if k = 1 then .ok 5 none else .err,
        fun _ => true, fun _ => true⟩ "v" "x" []).uploaded = some ⟨"x", 5, none⟩ ∧
    (retry_upload ⟨3, fun _ _ k => if k = 1 then .ok 5 none else .err,
        fun _ => true, fun _ => true⟩ "v" "x" []).attempts = 2 ∧
    (retry_upload ⟨3, fun _ _ _ => .conflict, fun _ => true, fun _ => true⟩
        "v" "x" []).uploaded = none := by
  refine ⟨?_, ?_, ?_⟩
  · exact ((retry_upload_bounded ⟨3, fun _ _ k => if k = 1 then .ok 5 none else .err,
      fun _ => true, fun _ => true⟩ "v" "x" []).2.1 1 5 none (by decide)
      (by decide) (by decide)).1
  · exact ((retry_upload_bounded ⟨3, fun _ _ k => if k = 1 then .ok 5 none else .err,
      fun _ => true, fun _ => true⟩ "v" "x" []).2.1 1 5 none (by decide)
      (by decide) (by decide)).2
  · exact ((retry_upload_bounded ⟨3, fun _ _ _ => .conflict, fun _ => true,
      fun _ => true⟩ "v" "x" []).2.2.1 (by decide)).1

/-! ### Claim C7: size is part of the identity key; old entries survive -/

/-- Whether the ledger holds an asset entry under `key` for release `sid`. -/
def asset_entry_present (sd : SyncedData) (sid key : String) : Bool :=
  (alookup key ((alookup sid sd.assets).getD [])).isSome

theorem asset_present_update (sd : SyncedData) (sid key sid' key' : String)
    (rec : AssetRecord) (h : asset_entry_present sd sid key = true) :
    asset_entry_present
      { sd with assets := (aset sid' (aset key' rec ((alookup sid' sd.assets).getD [])) sd.assets) }
      sid key = true := by
  unfold asset_entry_present at *
  rw [alookup_aset]
  by_cases hs : sid' = sid
  · subst hs
    simp only [if_pos rfl, Option.getD_some]
    exact alookup_aset_isSome_mono key key' rec _ h
  · simp [hs, h]

theorem asset_present_setdefault (sd : SyncedData) (sid key sid' : String)
    (h : asset_entry_present sd sid key = true) :
    asset_entry_present
      { sd with assets := asetdefault sid' [] sd.assets } sid key = true := by
  unfold asset_entry_present at *
  unfold asetdefault
  by_cases hp : (alookup sid' sd.assets).isSome
  · simp [hp, h]
  · simp only [hp, Bool.false_eq_true, if_false, alookup_aset]
    by_cases hs : sid' = sid
    · subst hs
      rw [Option.not_isSome_iff_eq_none] at hp
      rw [hp] at h
      simp [alookup] at h
    · simp [hs, h]

theorem sync_assets_go_present_mono (env : RunEnv) (rid : Nat) (sid0 tag : String)
    (now : Nat) (snap : List TargetAsset) :
    ∀ (l : List SourceAsset) (has : Bool) (st : RunState) (sid key : String),
      asset_entry_present st.synced_data sid key = true →
      asset_entry_present
        (sync_assets_go env rid sid0 tag now snap l has st).2.synced_data
        sid key = true := by
  intro l
  induction l with
  | nil => intro has st sid key h; exact h
  | cons a rest ih =>
    intro has st sid key h
    simp only [sync_assets_go, RunState.emit_synced_data]
    by_cases hns : need_sync ((alookup sid0 st.synced_data.assets).getD [])
        a (dict_by_name snap a.name) = true
    · rw [if_pos hns]
      by_cases hdl : env.download_ok a.browser_download_url = true
      · rw [if_pos hdl]
        split
        · rename_i u heq
          exact ih _ _ sid key (asset_present_update _ sid key sid0 _ _ h)
        · exact ih _ _ sid key h
      · rw [if_neg hdl]
        exact ih _ _ sid key h
    · rw [if_neg hns]
      exact ih _ _ sid key h

theorem sync_code_go_assets_eq (env : RunEnv) (rid : Nat) (tag : String)
    (now : Nat) (existing : List String) :
    ∀ (files : List (String × String)) (has : Bool) (st : RunState),
      (sync_code_go env rid tag now existing files has st).2.synced_data.assets =
        st.synced_data.assets ∧
      (sync_code_go env rid tag now existing files has st).2.synced_data.releases =
        st.synced_data.releases := by
  intro files
  induction files with
  | nil => intro has st; exact ⟨rfl, rfl⟩
  | cons fu rest ih =>
    intro has st
    obtain ⟨filename, url⟩ := fu
    simp only [sync_code_go, RunState.emit_synced_data]
    by_cases hex : filename ∈ existing
    · rw [if_pos hex]
      by_cases hcm : (alookup filename
          ((alookup tag st.synced_data.source_codes).getD [])).isSome = true
      · rw [if_pos hcm]; exact ih _ _
      · rw [if_neg hcm]; exact ih _ _
    · rw [if_neg hex]
      by_cases hdl : env.download_ok url = true
      · rw [if_pos hdl]
        split
        · exact ih _ _
        · exact ih _ _
      · rw [if_neg hdl]
        exact ih _ _

theorem get_or_create_synced_data (env : RunEnv) (r : SourceRelease)
    (st : RunState) :
    (get_or_create_release env r st).2.synced_data = st.synced_data := by
  unfold get_or_create_release
  split_ifs <;> rfl

theorem process_release_present_mono (env : RunEnv) (owner repo : String)
    (now : Nat) (r : SourceRelease) (st : RunState) (sid key : String)
    (h : asset_entry_present st.synced_data sid key = true) :
    asset_entry_present (process_release env owner repo now r st).synced_data
      sid key = true := by
  have hst1 : (get_or_create_release env r
      (st.emit (.beginRelease r.id r.created_at))).2.synced_data = st.synced_data :=
    get_or_create_synced_data env r (st.emit (.beginRelease r.id r.created_at))
  simp only [process_release]
  by_cases hg : (get_or_create_release env r
      (st.emit (.beginRelease r.id r.created_at))).1 = true
  · rw [if_pos hg]
    have hpc_assets :
        (sync_source_code env owner repo r.id now r.tag_name
          (get_or_create_release env r
            (st.emit (.beginRelease r.id r.created_at))).2).2.synced_data.assets =
          st.synced_data.assets := by
      unfold sync_source_code
      rw [(sync_code_go_assets_eq env r.id r.tag_name now _ _ _ _).1]
      rw [hst1]
    have hpa_present : asset_entry_present
        (sync_release_assets env now r
          (sync_source_code env owner repo r.id now r.tag_name
            (get_or_create_release env r
              (st.emit (.beginRelease r.id r.created_at))).2).2).2.synced_data
        sid key = true := by
      simp only [sync_release_assets]
      apply sync_assets_go_present_mono
      apply asset_present_setdefault
      unfold asset_entry_present at h ⊢
      rw [hpc_assets]
      exact h
    split <;> exact hpa_present
  · rw [if_neg hg]
    unfold asset_entry_present at h ⊢
    rw [hst1]
    exact h

theorem run_main_present_mono (env : RunEnv) (owner repo : String) (now : Nat)
    (releases : List SourceRelease) (st : RunState) (sid key : String)
    (h : asset_entry_present st.synced_data sid key = true) :
    asset_entry_present (run_main env owner repo now releases st).synced_data
      sid key = true := by
  unfold run_main
  generalize sort_releases releases = l
  induction l generalizing st with
  | nil => exact h
  | cons r rest ih =>
    exact ih _ (process_release_present_mono env owner repo now r st sid key h)

/-- **C7.** The `name_size` identity key separates sizes: for a fixed name,
different sizes give different keys; a source asset whose identity key has
no ledger entry (as after a size change) is always detected as needing
sync, whatever the old-size entry or the target listing say; and no run of
the engine ever removes a ledger asset entry — the old-size entry stays. -/
theorem asset_key_new_identity :
    (∀ (n : String) (s1 s2 : Nat), s1 ≠ s2 → asset_key n s1 ≠ asset_key n s2) ∧
    (∀ (la : List (String × AssetRecord)) (a : SourceAsset)
      (t : Option TargetAsset) (oldSize : Nat),
      (alookup (asset_key a.name oldSize) la).isSome = true →
      a.size ≠ oldSize →
      alookup (asset_key a.name a.size) la = none →
      need_sync la a t = true) ∧
    (∀ (env : RunEnv) (owner repo : String) (now : Nat)
      (releases : List SourceRelease) (sd : SyncedData)
      (target : List (String × List TargetAsset)) (sid key : String),
      asset_entry_present sd sid key = true →
      asset_entry_present
        (run_main env owner repo now releases
          (init_run_state sd target)).synced_data sid key = true) := by
  refine ⟨?_, ?_, ?_⟩
  · intro n s1 s2 hne heq
    exact hne (asset_key_size_inj n s1 s2 heq)
  · intro la a t oldSize _ _ hnone
    unfold need_sync
    rw [hnone]
    simp
  · intro env owner repo now releases sd target sid key h
    exact run_main_present_mono env owner repo now releases _ sid key h

/-- Witness for C7: a ledger holding `app_100`; the same name at size 200
keys differently, is detected as needing sync, and survives a full run. -/
theorem asset_key_new_identity_witness :
    need_sync [("app_100", ⟨"app", 100, none, 0⟩)]
      ⟨1, "app", 200, none, none, "u"⟩ (some ⟨"app", 200, none⟩) = true ∧
    asset_entry_present
      (run_main ⟨3, fun _ _ _ => .ok 200 none, fun _ => true, fun _ => true⟩
        "o" "r" 9 [⟨1, "v1", none, none, false, false, 0,
          [⟨2, "app", 200, none, none, "u"⟩]⟩]
        (init_run_state ⟨[], [("1", [("app_100", ⟨"app", 100, none, 0⟩)])], []⟩ [])).synced_data
      "1" "app_100" = true := by
  constructor
  · exact asset_key_new_identity.2.1 [("app_100", ⟨"app", 100, none, 0⟩)]
      ⟨1, "app", 200, none, none, "u"⟩ (some ⟨"app", 200, none⟩) 100
      (by decide) (by decide) (by decide)
  · exact asset_key_new_identity.2.2
      ⟨3, fun _ _ _ => .ok 200 none, fun _ => true, fun _ => true⟩ "o" "r" 9
      [⟨1, "v1", none, none, false, false, 0, [⟨2, "app", 200, none, none, "u"⟩]⟩]
      ⟨[], [("1", [("app_100", ⟨"app", 100, none, 0⟩)])], []⟩ [] "1" "app_100"
      (by decide)

/-! ### Trace structure of the two sync phases -/

/-- Events a `sync_source_code` call may append: tagged with the release,
never a commit, a release begin, or an asset-loop event. -/
def code_phase_event (rid : Nat) (e : Event) : Prop :=
  Event.rid e = rid ∧ Event.isCommit e = false ∧ Event.isBegin e = false ∧
    Event.isAssetArtifact e = false

/-- Events a `sync_release_assets` call may append. -/
def asset_phase_event (rid : Nat) (e : Event) : Prop :=
  Event.rid e = rid ∧ Event.isCommit e = false ∧ Event.isBegin e = false ∧
    Event.isCodeArtifact e = false

theorem any_transfer_iff (rid : Nat) (s : List Event)
    (h : ∀ e ∈ s, Event.rid e = rid) :
    (∃ n, Event.transferComplete rid n ∈ s) ↔ s.any Event.isTransfer = true := by
  constructor
  · rintro ⟨n, hn⟩
    exact List.any_eq_true.mpr ⟨_, hn, rfl⟩
  · intro ha
    obtain ⟨e, he, hT⟩ := List.any_eq_true.mp ha
    cases e with
    | transferComplete j n =>
      have := h _ he
      simp only [Event.rid] at this
      subst this
      exact ⟨n, he⟩
    | beginRelease j c => simp [Event.isTransfer] at hT
    | codeArtifact j f => simp [Event.isTransfer] at hT
    | assetArtifact j f => simp [Event.isTransfer] at hT
    | savePoint j => simp [Event.isTransfer] at hT
    | commitLedger j => simp [Event.isTransfer] at hT

theorem sync_code_go_trace (env : RunEnv) (rid : Nat) (tag : String) (now : Nat)
    (existing : List String) :
    ∀ (files : List (String × String)) (has : Bool) (st : RunState),
      ∃ seg,
        (sync_code_go env rid tag now existing files has st).2.trace =
          st.trace ++ seg ∧
        (sync_code_go env rid tag now existing files has st).1 =
          (has || seg.any Event.isTransfer) ∧
        ∀ e ∈ seg, code_phase_event rid e := by
  intro files
  induction files with
  | nil =>
    intro has st
    exact ⟨[], by simp [sync_code_go], by simp [sync_code_go], by simp⟩
  | cons fu rest ih =>
    intro has st
    obtain ⟨filename, url⟩ := fu
    simp only [sync_code_go, RunState.emit_synced_data]
    by_cases hex : filename ∈ existing
    · rw [if_pos hex]
      by_cases hcm : (alookup filename
          ((alookup tag st.synced_data.source_codes).getD [])).isSome = true
      · rw [if_pos hcm]
        obtain ⟨seg', h1, h2, h3⟩ := ih has (st.emit (.codeArtifact rid filename))
        refine ⟨.codeArtifact rid filename :: seg', ?_, ?_, ?_⟩
        · rw [h1]
          simp [RunState.emit_trace, RunState.doSave_trace]
        · rw [h2]
          simp [Event.isTransfer]
        · intro e he
          rcases List.mem_cons.mp he with rfl | he'
          · exact ⟨rfl, rfl, rfl, rfl⟩
          · exact h3 e he'
      · rw [if_neg hcm]
        obtain ⟨seg', h1, h2, h3⟩ := ih has _
        refine ⟨.codeArtifact rid filename :: .savePoint rid :: seg', ?_, ?_, ?_⟩
        · rw [h1]
          simp [RunState.emit_trace, RunState.doSave_trace]
        · rw [h2]
          simp [Event.isTransfer]
        · intro e he
          rcases List.mem_cons.mp he with rfl | he'
          · exact ⟨rfl, rfl, rfl, rfl⟩
          · rcases List.mem_cons.mp he' with rfl | he''
            · exact ⟨rfl, rfl, rfl, rfl⟩
            · exact h3 e he''
    · rw [if_neg hex]
      by_cases hdl : env.download_ok url = true
      · rw [if_pos hdl]
        split
        · rename_i u heq
          obtain ⟨seg', h1, h2, h3⟩ := ih true _
          refine ⟨.codeArtifact rid filename :: .savePoint rid ::
            .transferComplete rid filename :: seg', ?_, ?_, ?_⟩
          · rw [h1]
            simp [RunState.emit_trace, RunState.doSave_trace]
          · rw [h2]
            simp [Event.isTransfer]
          · intro e he
            rcases List.mem_cons.mp he with rfl | he'
            · exact ⟨rfl, rfl, rfl, rfl⟩
            · rcases List.mem_cons.mp he' with rfl | he''
              · exact ⟨rfl, rfl, rfl, rfl⟩
              · rcases List.mem_cons.mp he'' with rfl | he'''
                · exact ⟨rfl, rfl, rfl, rfl⟩
                · exact h3 e he'''
        · obtain ⟨seg', h1, h2, h3⟩ := ih has _
          refine ⟨.codeArtifact rid filename :: seg', ?_, ?_, ?_⟩
          · rw [h1]
            simp [RunState.emit_trace]
          · rw [h2]
            simp [Event.isTransfer]
          · intro e he
            rcases List.mem_cons.mp he with rfl | he'
            · exact ⟨rfl, rfl, rfl, rfl⟩
            · exact h3 e he'
      · rw [if_neg hdl]
        obtain ⟨seg', h1, h2, h3⟩ := ih has _
        refine ⟨.codeArtifact rid filename :: seg', ?_, ?_, ?_⟩
        · rw [h1]
          simp [RunState.emit_trace]
        · rw [h2]
          simp [Event.isTransfer]
        · intro e he
          rcases List.mem_cons.mp he with rfl | he'
          · exact ⟨rfl, rfl, rfl, rfl⟩
          · exact h3 e he'

theorem sync_assets_go_trace (env : RunEnv) (rid : Nat) (sid tag : String)
    (now : Nat) (snap : List TargetAsset) :
    ∀ (l : List SourceAsset) (has : Bool) (st : RunState),
      ∃ seg,
        (sync_assets_go env rid sid tag now snap l has st).2.trace =
          st.trace ++ seg ∧
        (sync_assets_go env rid sid tag now snap l has st).1 =
          (has || seg.any Event.isTransfer) ∧
        ∀ e ∈ seg, asset_phase_event rid e := by
  intro l
  induction l with
  | nil =>
    intro has st
    exact ⟨[], by simp [sync_assets_go], by simp [sync_assets_go], by simp⟩
  | cons a rest ih =>
    intro has st
    simp only [sync_assets_go, RunState.emit_synced_data]
    by_cases hns : need_sync ((alookup sid st.synced_data.assets).getD [])
        a (dict_by_name snap a.name) = true
    · rw [if_pos hns]
      by_cases hdl : env.download_ok a.browser_download_url = true
      · rw [if_pos hdl]
        split
        · rename_i u heq
          obtain ⟨seg', h1, h2, h3⟩ := ih true _
          refine ⟨.assetArtifact rid a.name :: .savePoint rid ::
            .transferComplete rid a.name :: seg', ?_, ?_, ?_⟩
          · rw [h1]
            simp [RunState.emit_trace, RunState.doSave_trace]
          · rw [h2]
            simp [Event.isTransfer]
          · intro e he
            rcases List.mem_cons.mp he with rfl | he'
            · exact ⟨rfl, rfl, rfl, rfl⟩
            · rcases List.mem_cons.mp he' with rfl | he''
              · exact ⟨rfl, rfl, rfl, rfl⟩
              · rcases List.mem_cons.mp he'' with rfl | he'''
                · exact ⟨rfl, rfl, rfl, rfl⟩
                · exact h3 e he'''
        · obtain ⟨seg', h1, h2, h3⟩ := ih has _
          refine ⟨.assetArtifact rid a.name :: seg', ?_, ?_, ?_⟩
          · rw [h1]
            simp [RunState.emit_trace]
          · rw [h2]
            simp [Event.isTransfer]
          · intro e he
            rcases List.mem_cons.mp he with rfl | he'
            · exact ⟨rfl, rfl, rfl, rfl⟩
            · exact h3 e he'
      · rw [if_neg hdl]
        obtain ⟨seg', h1, h2, h3⟩ := ih has _
        refine ⟨.assetArtifact rid a.name :: seg', ?_, ?_, ?_⟩
        · rw [h1]
          simp [RunState.emit_trace]
        · rw [h2]
          simp [Event.isTransfer]
        · intro e he
          rcases List.mem_cons.mp he with rfl | he'
          · exact ⟨rfl, rfl, rfl, rfl⟩
          · exact h3 e he'
    · rw [if_neg hns]
      obtain ⟨seg', h1, h2, h3⟩ := ih has _
      refine ⟨.assetArtifact rid a.name :: seg', ?_, ?_, ?_⟩
      · rw [h1]
        simp [RunState.emit_trace]
      · rw [h2]
        simp [Event.isTransfer]
      · intro e he
        rcases List.mem_cons.mp he with rfl | he'
        · exact ⟨rfl, rfl, rfl, rfl⟩
        · exact h3 e he'

/-! ### Claim C3: commit gating -/

theorem alookup_aset_self {α : Type} (k : String) (v : α) (m : List (String × α)) :
    alookup k (aset k v m) = some v := by
  rw [alookup_aset]
  simp

theorem get_or_create_trace (env : RunEnv) (r : SourceRelease) (st : RunState) :
    (get_or_create_release env r st).2.trace = st.trace := by
  unfold get_or_create_release
  split_ifs <;> rfl

theorem beginTime_none_of_isBegin_false {e : Event} (h : Event.isBegin e = false) :
    Event.beginTime e = none := by
  cases e <;> simp_all [Event.isBegin, Event.beginTime]

theorem ne_commit_of_isCommit_false {rid : Nat} {e : Event}
    (h : Event.isCommit e = false) : Event.commitLedger rid ≠ e := by
  intro he
  rw [← he] at h
  simp [Event.isCommit] at h

theorem sync_source_code_trace (env : RunEnv) (owner repo : String) (rid : Nat)
    (now : Nat) (tag : String) (st : RunState) :
    ∃ seg,
      (sync_source_code env owner repo rid now tag st).2.trace = st.trace ++ seg ∧
      (sync_source_code env owner repo rid now tag st).1 =
        seg.any Event.isTransfer ∧
      ∀ e ∈ seg, code_phase_event rid e := by
  unfold sync_source_code
  obtain ⟨seg, h1, h2, h3⟩ := sync_code_go_trace env rid tag now
    (((alookup tag st.target).getD []).map TargetAsset.name)
    (source_code_files owner repo tag) false
    { st with synced_data := { st.synced_data with
        source_codes := asetdefault tag [] st.synced_data.source_codes } }
  exact ⟨seg, h1, h2, h3⟩

theorem sync_release_assets_trace (env : RunEnv) (now : Nat) (r : SourceRelease)
    (st : RunState) :
    ∃ seg,
      (sync_release_assets env now r st).2.trace = st.trace ++ seg ∧
      (sync_release_assets env now r st).1 = seg.any Event.isTransfer ∧
      ∀ e ∈ seg, asset_phase_event r.id e := by
  unfold sync_release_assets
  obtain ⟨seg, h1, h2, h3⟩ := sync_assets_go_trace env r.id (toString r.id)
    r.tag_name now _ r.assets false
    { st with synced_data := { st.synced_data with
        assets := asetdefault (toString r.id) [] st.synced_data.assets } }
  exact ⟨seg, h1, h2, h3⟩

/-- Structure of one release's trace segment: a `beginRelease`, then
code-phase events, then asset-phase events, then the unconditional
fully-synced save, then a commit exactly when a transfer completed. -/
theorem process_release_trace (env : RunEnv) (owner repo : String) (now : Nat)
    (r : SourceRelease) (st : RunState) :
    ∃ P Q,
      (process_release env owner repo now r st).trace = st.trace ++ (P ++ Q) ∧
      (∀ e ∈ P, Event.rid e = r.id ∧ Event.isAssetArtifact e = false) ∧
      (∀ e ∈ Q, Event.rid e = r.id ∧ Event.isCodeArtifact e = false) ∧
      (P ++ Q).filterMap Event.beginTime = [r.created_at] ∧
      (Event.commitLedger r.id ∈ P ++ Q ↔
        ∃ n, Event.transferComplete r.id n ∈ P ++ Q) ∧
      ((get_or_create_release env r
          (st.emit (.beginRelease r.id r.created_at))).1 = true →
        alookup (toString r.id)
          (process_release env owner repo now r st).synced_data.releases =
          some ⟨r.tag_name, now⟩) := by
  simp only [process_release]
  by_cases hg : (get_or_create_release env r
      (st.emit (.beginRelease r.id r.created_at))).1 = true
  · rw [if_pos hg]
    set g := get_or_create_release env r (st.emit (.beginRelease r.id r.created_at))
      with hgdef
    have hgtrace : g.2.trace = st.trace ++ [.beginRelease r.id r.created_at] := by
      rw [hgdef, get_or_create_trace, RunState.emit_trace]
    set pc := sync_source_code env owner repo r.id now r.tag_name g.2 with hpcdef
    set pa := sync_release_assets env now r pc.2 with hpadef
    have hc := sync_source_code_trace env owner repo r.id now r.tag_name g.2
    rw [← hpcdef] at hc
    obtain ⟨s1, hc1, hc2, hc3⟩ := hc
    have ha := sync_release_assets_trace env now r pc.2
    rw [← hpadef] at ha
    obtain ⟨s2, ha1, ha2, ha3⟩ := ha
    have hs1nil : s1.filterMap Event.beginTime = [] :=
      List.filterMap_eq_nil_iff.mpr
        (fun e he => beginTime_none_of_isBegin_false (hc3 e he).2.2.1)
    have hs2nil : s2.filterMap Event.beginTime = [] :=
      List.filterMap_eq_nil_iff.mpr
        (fun e he => beginTime_none_of_isBegin_false (ha3 e he).2.2.1)
    have hrel : alookup (toString r.id)
        (aset (toString r.id) (⟨r.tag_name, now⟩ : ReleaseRecord)
          pa.2.synced_data.releases) = some ⟨r.tag_name, now⟩ :=
      alookup_aset_self _ _ _
    by_cases hcm : (pc.1 || pa.1) = true
    · refine ⟨.beginRelease r.id r.created_at :: s1,
        s2 ++ [.savePoint r.id, .commitLedger r.id], ?_, ?_, ?_, ?_, ?_, ?_⟩
      · rw [if_pos hcm, RunState.emit_trace, RunState.doSave_trace]
        have : ({ pa.2 with synced_data := { pa.2.synced_data with
            releases := aset (toString r.id) ⟨r.tag_name, now⟩
              pa.2.synced_data.releases } } : RunState).trace = pa.2.trace := rfl
        rw [this, ha1, hc1, hgtrace]
        simp
      · intro e he
        rcases List.mem_cons.mp he with rfl | he'
        · exact ⟨rfl, rfl⟩
        · exact ⟨(hc3 e he').1, (hc3 e he').2.2.2⟩
      · intro e he
        rcases List.mem_append.mp he with he' | he'
        · exact ⟨(ha3 e he').1, (ha3 e he').2.2.2⟩
        · rcases List.mem_cons.mp he' with rfl | he''
          · exact ⟨rfl, rfl⟩
          · rcases List.mem_cons.mp he'' with rfl | he'''
            · exact ⟨rfl, rfl⟩
            · simp at he'''
      · simp [List.filterMap_append, hs1nil, hs2nil, Event.beginTime]
      · constructor
        · intro _
          rcases Bool.or_eq_true_iff.mp hcm with hp | hp
          · rw [hc2] at hp
            obtain ⟨n, hn⟩ := (any_transfer_iff r.id s1
              (fun e he => (hc3 e he).1)).mpr hp
            exact ⟨n, by simp [hn]⟩
          · rw [ha2] at hp
            obtain ⟨n, hn⟩ := (any_transfer_iff r.id s2
              (fun e he => (ha3 e he).1)).mpr hp
            exact ⟨n, by simp [hn]⟩
        · intro _
          simp
      · intro _
        rw [if_pos hcm]
        exact hrel
    · refine ⟨.beginRelease r.id r.created_at :: s1,
        s2 ++ [.savePoint r.id], ?_, ?_, ?_, ?_, ?_, ?_⟩
      · rw [if_neg hcm, RunState.doSave_trace]
        have : ({ pa.2 with synced_data := { pa.2.synced_data with
            releases := aset (toString r.id) ⟨r.tag_name, now⟩
              pa.2.synced_data.releases } } : RunState).trace = pa.2.trace := rfl
        rw [this, ha1, hc1, hgtrace]
        simp
      · intro e he
        rcases List.mem_cons.mp he with rfl | he'
        · exact ⟨rfl, rfl⟩
        · exact ⟨(hc3 e he').1, (hc3 e he').2.2.2⟩
      · intro e he
        rcases List.mem_append.mp he with he' | he'
        · exact ⟨(ha3 e he').1, (ha3 e he').2.2.2⟩
        · rcases List.mem_cons.mp he' with rfl | he''
          · exact ⟨rfl, rfl⟩
          · simp at he''
      · simp [List.filterMap_append, hs1nil, hs2nil, Event.beginTime]
      · have h0 : (pc.1 || pa.1) = false := by simpa using hcm
        have hps := Bool.or_eq_false_iff.mp h0
        constructor
        · intro hmem
          exfalso
          rcases List.mem_append.mp hmem with hmem | hmem
          · rcases List.mem_cons.mp hmem with heq | hmem
            · simp at heq
            · exact absurd rfl (ne_commit_of_isCommit_false (hc3 _ hmem).2.1)
          · rcases List.mem_append.mp hmem with hmem | hmem
            · exact absurd rfl (ne_commit_of_isCommit_false (ha3 _ hmem).2.1)
            · simp at hmem
        · rintro ⟨n, hn⟩
          exfalso
          rcases List.mem_append.mp hn with hn | hn
          · rcases List.mem_cons.mp hn with heq | hn
            · simp at heq
            · have hany : s1.any Event.isTransfer = true :=
                List.any_eq_true.mpr ⟨_, hn, rfl⟩
              rw [← hc2, hps.1] at hany
              exact Bool.false_ne_true hany
          · rcases List.mem_append.mp hn with hn | hn
            · have hany : s2.any Event.isTransfer = true :=
                List.any_eq_true.mpr ⟨_, hn, rfl⟩
              rw [← ha2, hps.2] at hany
              exact Bool.false_ne_true hany
            · simp at hn
      · intro _
        rw [if_neg hcm]
        exact hrel
  · rw [if_neg hg]
    refine ⟨[.beginRelease r.id r.created_at], [], ?_, ?_, ?_, ?_, ?_, ?_⟩
    · rw [get_or_create_trace, RunState.emit_trace]
      simp
    · intro e he
      rcases List.mem_cons.mp he with rfl | he'
      · exact ⟨rfl, rfl⟩
      · simp at he'
    · intro e he
      simp at he
    · simp [Event.beginTime]
    · constructor
      · intro hmem
        simp at hmem
      · rintro ⟨n, hn⟩
        simp at hn
    · intro hgt
      exact absurd hgt hg

/-- **C3.** The external ledger-commit (`push_after_version`) fires for a
processed release exactly when at least one artifact of that release —
source archive or binary asset — both required a sync and completed its
transfer during this run (a `transferComplete` event); and whenever the
release was located at all, the ledger still gains its fully-synced
timestamp entry, commit or no commit. -/
theorem commit_gating (env : RunEnv) (owner repo : String) (now : Nat)
    (r : SourceRelease) (st : RunState) :
    ∃ seg,
      (process_release env owner repo now r st).trace = st.trace ++ seg ∧
      (Event.commitLedger r.id ∈ seg ↔
        ∃ n, Event.transferComplete r.id n ∈ seg) ∧
      ((get_or_create_release env r
          (st.emit (.beginRelease r.id r.created_at))).1 = true →
        alookup (toString r.id)
          (process_release env owner repo now r st).synced_data.releases =
          some ⟨r.tag_name, now⟩) := by
  obtain ⟨P, Q, h1, _, _, _, h5, h6⟩ := process_release_trace env owner repo now r st
  exact ⟨P ++ Q, h1, h5, h6⟩

/-- Witness for C3: a located release with one fresh asset commits and
records its fully-synced entry. -/
theorem commit_gating_witness :
    alookup (toString (1 : Nat))
      (process_release ⟨3, fun _ _ _ => .ok 5 none, fun _ => true, fun _ => true⟩
        "o" "r" 4 ⟨1, "v1", none, none, false, false, 0, []⟩
        (init_run_state empty_synced_data [])).synced_data.releases =
      some ⟨"v1", 4⟩ := by
  obtain ⟨seg, h1, h2, h3⟩ := commit_gating
    ⟨3, fun _ _ _ => .ok 5 none, fun _ => true, fun _ => true⟩
    "o" "r" 4 ⟨1, "v1", none, none, false, false, 0, []⟩
    (init_run_state empty_synced_data [])
  exact h3 (by decide)

/-! ### Claim C8: ordering guarantees -/

/-- An asset-loop processing event of release `i`. -/
def Event.isAssetOf (i : Nat) (e : Event) : Bool :=
  Event.isAssetArtifact e && (Event.rid e == i)

/-- A source-code-loop processing event of release `i`. -/
def Event.isCodeOf (i : Nat) (e : Event) : Bool :=
  Event.isCodeArtifact e && (Event.rid e == i)

theorem isAssetOf_false_of_rid_ne {i : Nat} {e : Event} (h : Event.rid e ≠ i) :
    Event.isAssetOf i e = false := by
  unfold Event.isAssetOf
  simp [h]

theorem isAssetOf_false_of_not_artifact {i : Nat} {e : Event}
    (h : Event.isAssetArtifact e = false) : Event.isAssetOf i e = false := by
  unfold Event.isAssetOf
  simp [h]

theorem isCodeOf_false_of_rid_ne {i : Nat} {e : Event} (h : Event.rid e ≠ i) :
    Event.isCodeOf i e = false := by
  unfold Event.isCodeOf
  simp [h]

theorem isCodeOf_false_of_not_artifact {i : Nat} {e : Event}
    (h : Event.isCodeArtifact e = false) : Event.isCodeOf i e = false := by
  unfold Event.isCodeOf
  simp [h]

instance : IsTotal SourceRelease releaseLE :=
  ⟨fun a b => Int.le_total a.created_at b.created_at⟩

instance : IsTrans SourceRelease releaseLE :=
  ⟨fun _ _ _ h1 h2 => le_trans h1 h2⟩

theorem run_fold_trace (env : RunEnv) (owner repo : String) (now : Nat) :
    ∀ (l : List SourceRelease) (st : RunState),
      ∃ seg,
        (l.foldl (fun st r => process_release env owner repo now r st) st).trace =
          st.trace ++ seg ∧
        seg.filterMap Event.beginTime = l.map SourceRelease.created_at ∧
        ∀ e ∈ seg, Event.rid e ∈ l.map SourceRelease.id := by
  intro l
  induction l with
  | nil => intro st; exact ⟨[], by simp, by simp, by simp⟩
  | cons r rest ih =>
    intro st
    obtain ⟨P, Q, hm1, hm2, hm3, hm4, _, _⟩ :=
      process_release_trace env owner repo now r st
    obtain ⟨seg', h1, h2, h3⟩ := ih (process_release env owner repo now r st)
    refine ⟨(P ++ Q) ++ seg', ?_, ?_, ?_⟩
    · rw [List.foldl_cons, h1, hm1]
      simp [List.append_assoc]
    · rw [List.filterMap_append, hm4, h2]
      simp
    · intro e he
      rcases List.mem_append.mp he with he | he
      · have hrid : Event.rid e = r.id := by
          rcases List.mem_append.mp he with he | he
          · exact (hm2 e he).1
          · exact (hm3 e he).1
        simp [hrid]
      · simp [h3 e he]

/-- **C8.** Releases are processed in ascending creation-time order (the
`beginRelease` instants in the run's trace are sorted), and within each
release the two source-code archives are processed before any binary
asset: the trace splits into a prefix with no asset-loop event of that
release and a suffix with no code-loop event of it. -/
theorem releases_ordered_code_first (env : RunEnv) (owner repo : String)
    (now : Nat) (releases : List SourceRelease) (sd : SyncedData)
    (target : List (String × List TargetAsset)) :
    List.Pairwise (fun a b => a ≤ b)
      ((run_main env owner repo now releases
        (init_run_state sd target)).trace.filterMap Event.beginTime) ∧
    ((releases.map SourceRelease.id).Nodup →
      ∀ r ∈ releases, ∃ A B,
        (run_main env owner repo now releases (init_run_state sd target)).trace =
          A ++ B ∧
        (∀ e ∈ A, Event.isAssetOf r.id e = false) ∧
        (∀ e ∈ B, Event.isCodeOf r.id e = false)) := by
  have hperm := List.perm_insertionSort releaseLE releases
  constructor
  · obtain ⟨seg, h1, h2, _⟩ := run_fold_trace env owner repo now
      (sort_releases releases) (init_run_state sd target)
    have htr : (run_main env owner repo now releases
        (init_run_state sd target)).trace = seg := by
      rw [run_main]
      rw [show (init_run_state sd target).trace = [] from rfl] at h1
      simpa using h1
    rw [htr, h2]
    have hsorted : List.Sorted releaseLE (sort_releases releases) :=
      List.sorted_insertionSort releaseLE releases
    exact List.pairwise_map.mpr hsorted
  · intro hnd r hr
    have hrs : r ∈ sort_releases releases := hperm.mem_iff.mpr hr
    obtain ⟨l1, l2, hsplit⟩ := List.append_of_mem hrs
    have hndS : ((sort_releases releases).map SourceRelease.id).Nodup :=
      (List.Perm.nodup_iff (hperm.map SourceRelease.id)).mpr hnd
    rw [hsplit, List.map_append, List.map_cons] at hndS
    have hnot1 : r.id ∉ l1.map SourceRelease.id := by
      rcases List.nodup_append.mp hndS with ⟨_, _, hdisj⟩
      intro hmem
      exact hdisj hmem (by simp)
    have hnot2 : r.id ∉ l2.map SourceRelease.id := by
      rcases List.nodup_append.mp hndS with ⟨_, hnd2, _⟩
      exact (List.nodup_cons.mp hnd2).1
    have hfold : run_main env owner repo now releases (init_run_state sd target) =
        l2.foldl (fun st r => process_release env owner repo now r st)
          (process_release env owner repo now r
            (l1.foldl (fun st r => process_release env owner repo now r st)
              (init_run_state sd target))) := by
      rw [run_main, hsplit, List.foldl_append, List.foldl_cons]
    obtain ⟨s1, hA1, _, hA3⟩ := run_fold_trace env owner repo now l1
      (init_run_state sd target)
    obtain ⟨P, Q, hm1, hm2, hm3, _, _, _⟩ := process_release_trace env owner repo
      now r (l1.foldl (fun st r => process_release env owner repo now r st)
        (init_run_state sd target))
    obtain ⟨s3, hB1, _, hB3⟩ := run_fold_trace env owner repo now l2
      (process_release env owner repo now r
        (l1.foldl (fun st r => process_release env owner repo now r st)
          (init_run_state sd target)))
    refine ⟨s1 ++ P, Q ++ s3, ?_, ?_, ?_⟩
    · rw [hfold, hB1, hm1, hA1]
      rw [show (init_run_state sd target).trace = [] from rfl]
      simp [List.append_assoc]
    · intro e he
      rcases List.mem_append.mp he with he | he
      · have hin := hA3 e he
        exact isAssetOf_false_of_rid_ne (fun hq => hnot1 (hq ▸ hin))
      · exact isAssetOf_false_of_not_artifact (hm2 e he).2
    · intro e he
      rcases List.mem_append.mp he with he | he
      · exact isCodeOf_false_of_not_artifact (hm3 e he).2
      · have hin := hB3 e he
        exact isCodeOf_false_of_rid_ne (fun hq => hnot2 (hq ▸ hin))

/-- Witness for C8's split at a concrete two-release run. -/
theorem releases_ordered_code_first_witness :
    ∃ A B,
      (run_main ⟨3, fun _ _ _ => .ok 5 none, fun _ => true, fun _ => true⟩
        "o" "r" 4
        [⟨1, "v1", none, none, false, false, 0, []⟩,
         ⟨2, "v2", none, none, false, false, 1, []⟩]
        (init_run_state empty_synced_data [])).trace = A ++ B ∧
      (∀ e ∈ A, Event.isAssetOf 2 e = false) ∧
      (∀ e ∈ B, Event.isCodeOf 2 e = false) := by
  exact (releases_ordered_code_first
    ⟨3, fun _ _ _ => .ok 5 none, fun _ => true, fun _ => true⟩ "o" "r" 4
    [⟨1, "v1", none, none, false, false, 0, []⟩,
     ⟨2, "v2", none, none, false, false, 1, []⟩]
    empty_synced_data []).2 (by decide)
    ⟨2, "v2", none, none, false, false, 1, []⟩ (by decide)

/-! ### Claim C10: archive already on target, missing from the ledger -/

theorem alookup_asetdefault_getD {α : Type} (k : String) (v : α)
    (m : List (String × α)) :
    (alookup k (asetdefault k v m)).getD v = (alookup k m).getD v := by
  unfold asetdefault
  by_cases hs : (alookup k m).isSome = true
  · rw [if_pos hs]
  · rw [if_neg hs, alookup_aset_self]
    rw [Option.not_isSome_iff_eq_none.mp hs]
    rfl

theorem source_code_filenames_nodup (tag : String) :
    (source_code_filenames tag).Nodup := by
  unfold source_code_filenames
  refine List.nodup_cons.mpr ⟨?_, List.nodup_singleton _⟩
  intro h
  have heq := List.mem_singleton.mp h
  have hlen := congrArg String.length heq
  have h11 : ("SourceCode_" : String).length = 11 := rfl
  have hz : (".zip" : String).length = 4 := rfl
  have hgz : (".tar.gz" : String).length = 7 := rfl
  rw [String.length_append, String.length_append, String.length_append,
    String.length_append, h11, hz, hgz] at hlen
  omega

/-- The per-file loop when every file is already present in the target
snapshot: no transfer, no change flag; missing ledger entries are added
(with a save), existing ones kept. -/
theorem sync_code_go_all_exist (env : RunEnv) (rid : Nat) (tag : String)
    (now : Nat) (existing : List String) :
    ∀ (files : List (String × String)) (has : Bool) (st : RunState),
      (∀ fu ∈ files, fu.1 ∈ existing) →
      (files.map Prod.fst).Nodup →
      (sync_code_go env rid tag now existing files has st).1 = has ∧
      (sync_code_go env rid tag now existing files has st).2.target = st.target ∧
      (sync_code_go env rid tag now existing files has st).2.transfers =
        st.transfers ∧
      (sync_code_go env rid tag now existing files has st).2.synced_data.assets =
        st.synced_data.assets ∧
      (sync_code_go env rid tag now existing files has st).2.synced_data.releases =
        st.synced_data.releases ∧
      (sync_code_go env rid tag now existing files has st).2.saves ≥ st.saves ∧
      (∀ f, f ∉ files.map Prod.fst →
        alookup f ((alookup tag (sync_code_go env rid tag now existing files has
            st).2.synced_data.source_codes).getD []) =
          alookup f ((alookup tag st.synced_data.source_codes).getD [])) ∧
      (∀ f ∈ files.map Prod.fst,
        alookup f ((alookup tag (sync_code_go env rid tag now existing files has
            st).2.synced_data.source_codes).getD []) =
          some ((alookup f
            ((alookup tag st.synced_data.source_codes).getD [])).getD
            ⟨true, now⟩)) ∧
      ((∃ fu ∈ files, alookup fu.1
          ((alookup tag st.synced_data.source_codes).getD []) = none) →
        (sync_code_go env rid tag now existing files has st).2.saves > st.saves) := by
  intro files
  induction files with
  | nil =>
    intro has st _ _
    refine ⟨rfl, rfl, rfl, rfl, rfl, le_refl _, fun f _ => rfl, ?_, ?_⟩
    · intro f hf
      simp at hf
    · rintro ⟨fu, hfu, _⟩
      simp at hfu
  | cons fu rest ih =>
    intro has st hex hnd
    obtain ⟨filename, url⟩ := fu
    have hfex : filename ∈ existing := hex _ (List.mem_cons_self _ _)
    have hnd' : (rest.map Prod.fst).Nodup := (List.nodup_cons.mp hnd).2
    have hfnotin : filename ∉ rest.map Prod.fst := (List.nodup_cons.mp hnd).1
    simp only [sync_code_go, RunState.emit_synced_data]
    rw [if_pos hfex]
    by_cases hcm : (alookup filename
        ((alookup tag st.synced_data.source_codes).getD [])).isSome = true
    · rw [if_pos hcm]
      obtain ⟨v, hv⟩ := Option.isSome_iff_exists.mp hcm
      obtain ⟨g1, g2, g3, g4, g5, g6, g7, g8, g9⟩ :=
        ih has (st.emit (.codeArtifact rid filename))
          (fun fu' hfu' => hex fu' (List.mem_cons_of_mem _ hfu')) hnd'
      refine ⟨g1, g2, g3, g4, g5, g6, ?_, ?_, ?_⟩
      · intro f hf
        exact g7 f (fun hmem => hf (List.mem_cons_of_mem _ hmem))
      · intro f hf
        rcases List.mem_cons.mp hf with rfl | hf'
        · rw [g7 f hfnotin, RunState.emit_synced_data, hv]
          rfl
        · exact g8 f hf'
      · rintro ⟨fu', hfu', hnone⟩
        rcases List.mem_cons.mp hfu' with rfl | hfu''
        · rw [hv] at hnone
          exact absurd hnone (by simp)
        · exact g9 ⟨fu', hfu'', hnone⟩
    · rw [if_neg hcm]
      have hcm' : alookup filename
          ((alookup tag st.synced_data.source_codes).getD []) = none :=
        Option.not_isSome_iff_eq_none.mp hcm
      obtain ⟨g1, g2, g3, g4, g5, g6, g7, g8, g9⟩ := ih has _
        (fun fu' hfu' => hex fu' (List.mem_cons_of_mem _ hfu')) hnd'
      refine ⟨g1, g2, g3, g4, g5, ?_, ?_, ?_, ?_⟩
      · exact le_trans (Nat.le_succ _) g6
      · intro f hf
        have hne : ¬ filename = f := by
          intro heq
          subst heq
          exact hf (List.mem_cons_self _ _)
        rw [g7 f (fun hmem => hf (List.mem_cons_of_mem _ hmem))]
        simp only [RunState.doSave_synced_data, RunState.emit_synced_data,
          alookup_aset_self, Option.getD_some]
        rw [alookup_aset, if_neg hne]
      · intro f hf
        rcases List.mem_cons.mp hf with rfl | hf'
        · rw [g7 f hfnotin]
          simp only [RunState.doSave_synced_data, RunState.emit_synced_data,
            alookup_aset_self, Option.getD_some]
          rw [hcm']
          rfl
        · have hne : ¬ filename = f := by
            intro heq
            subst heq
            exact hfnotin hf'
          rw [g8 f hf']
          simp only [RunState.doSave_synced_data, RunState.emit_synced_data,
            alookup_aset_self, Option.getD_some]
          rw [alookup_aset, if_neg hne]
      · intro _
        exact lt_of_lt_of_le (Nat.lt_succ_self _) g6

theorem sync_source_code_all_exist (env : RunEnv) (owner repo : String)
    (rid : Nat) (now : Nat) (tag : String) (st : RunState)
    (listing : List TargetAsset)
    (hlist : alookup tag st.target = some listing)
    (hex : ∀ f ∈ source_code_filenames tag, f ∈ listing.map TargetAsset.name) :
    (sync_source_code env owner repo rid now tag st).1 = false ∧
    (sync_source_code env owner repo rid now tag st).2.target = st.target ∧
    (sync_source_code env owner repo rid now tag st).2.transfers =
      st.transfers ∧
    (sync_source_code env owner repo rid now tag st).2.synced_data.assets =
      st.synced_data.assets ∧
    (sync_source_code env owner repo rid now tag st).2.synced_data.releases =
      st.synced_data.releases ∧
    (∀ f ∈ source_code_filenames tag,
      alookup f ((alookup tag (sync_source_code env owner repo rid now tag
          st).2.synced_data.source_codes).getD []) =
        some ((alookup f
          ((alookup tag st.synced_data.source_codes).getD [])).getD
          ⟨true, now⟩)) ∧
    ((∃ f ∈ source_code_filenames tag,
        alookup f ((alookup tag st.synced_data.source_codes).getD []) = none) →
      (sync_source_code env owner repo rid now tag st).2.saves > st.saves) := by
  have hex' : ∀ fu ∈ source_code_files owner repo tag,
      fu.1 ∈ ((alookup tag st.target).getD []).map TargetAsset.name := by
    intro fu hfu
    rw [hlist]
    simp only [Option.getD_some]
    refine hex fu.1 ?_
    rw [← source_code_files_names owner repo tag]
    exact List.mem_map_of_mem Prod.fst hfu
  have hnd' : ((source_code_files owner repo tag).map Prod.fst).Nodup := by
    rw [source_code_files_names]
    exact source_code_filenames_nodup tag
  obtain ⟨g1, g2, g3, g4, g5, _, _, g8, g9⟩ := sync_code_go_all_exist env rid
    tag now (((alookup tag st.target).getD []).map TargetAsset.name)
    (source_code_files owner repo tag) false
    { st with synced_data := { st.synced_data with
        source_codes := asetdefault tag [] st.synced_data.source_codes } }
    hex' hnd'
  have key : (alookup tag ({ st with synced_data := { st.synced_data with
      source_codes := asetdefault tag [] st.synced_data.source_codes } }
        : RunState).synced_data.source_codes).getD [] =
      (alookup tag st.synced_data.source_codes).getD [] :=
    alookup_asetdefault_getD tag [] st.synced_data.source_codes
  refine ⟨g1, g2, g3, g4, g5, ?_, ?_⟩
  · intro f hf
    have hf' : f ∈ (source_code_files owner repo tag).map Prod.fst := by
      rw [source_code_files_names]
      exact hf
    have g8' := g8 f hf'
    rw [key] at g8'
    exact g8'
  · rintro ⟨f, hf, hnone⟩
    have hf' : f ∈ (source_code_files owner repo tag).map Prod.fst := by
      rw [source_code_files_names]
      exact hf
    obtain ⟨fu, hfu, hfeq⟩ := List.mem_map.mp hf'
    refine g9 ⟨fu, hfu, ?_⟩
    rw [key, hfeq]
    exact hnone

theorem sync_assets_go_all_skip (env : RunEnv) (rid : Nat) (sid tag : String)
    (now : Nat) (snap : List TargetAsset) :
    ∀ (l : List SourceAsset) (has : Bool) (st : RunState),
      (∀ a ∈ l, need_sync ((alookup sid st.synced_data.assets).getD []) a
        (dict_by_name snap a.name) = false) →
      (sync_assets_go env rid sid tag now snap l has st).1 = has ∧
      (sync_assets_go env rid sid tag now snap l has st).2.synced_data =
        st.synced_data ∧
      (sync_assets_go env rid sid tag now snap l has st).2.target = st.target ∧
      (sync_assets_go env rid sid tag now snap l has st).2.transfers =
        st.transfers ∧
      (sync_assets_go env rid sid tag now snap l has st).2.saves = st.saves := by
  intro l
  induction l with
  | nil => intro has st _; exact ⟨rfl, rfl, rfl, rfl, rfl⟩
  | cons a rest ih =>
    intro has st hskip
    have hhd : need_sync ((alookup sid st.synced_data.assets).getD []) a
        (dict_by_name snap a.name) = false := hskip a (List.mem_cons_self _ _)
    simp only [sync_assets_go, RunState.emit_synced_data]
    rw [hhd, if_neg Bool.false_ne_true]
    exact ih has (st.emit (.assetArtifact rid a.name))
      (fun a' ha' => hskip a' (List.mem_cons_of_mem _ ha'))

theorem sync_release_assets_all_skip (env : RunEnv) (now : Nat)
    (r : SourceRelease) (st : RunState) (listing : List TargetAsset)
    (hlist : alookup r.tag_name st.target = some listing)
    (hassets : ∀ a ∈ r.assets,
      need_sync ((alookup (toString r.id) st.synced_data.assets).getD []) a
        (dict_by_name listing a.name) = false) :
    (sync_release_assets env now r st).1 = false ∧
    (sync_release_assets env now r st).2.synced_data =
      { st.synced_data with
        assets := asetdefault (toString r.id) [] st.synced_data.assets } ∧
    (sync_release_assets env now r st).2.target = st.target ∧
    (sync_release_assets env now r st).2.transfers = st.transfers ∧
    (sync_release_assets env now r st).2.saves = st.saves := by
  have key : (alookup (toString r.id)
      ({ st with synced_data := { st.synced_data with
        assets := asetdefault (toString r.id) [] st.synced_data.assets } }
          : RunState).synced_data.assets).getD [] =
      (alookup (toString r.id) st.synced_data.assets).getD [] :=
    alookup_asetdefault_getD (toString r.id) [] st.synced_data.assets
  have hsnap : (alookup r.tag_name ({ st with synced_data := { st.synced_data with
      assets := asetdefault (toString r.id) [] st.synced_data.assets } }
        : RunState).target).getD [] = listing := by
    rw [show ({ st with synced_data := { st.synced_data with
      assets := asetdefault (toString r.id) [] st.synced_data.assets } }
        : RunState).target = st.target from rfl, hlist]
    rfl
  have hconv : ∀ a ∈ r.assets,
      need_sync ((alookup (toString r.id)
        ({ st with synced_data := { st.synced_data with
          assets := asetdefault (toString r.id) [] st.synced_data.assets } }
            : RunState).synced_data.assets).getD []) a
        (dict_by_name ((alookup r.tag_name
          ({ st with synced_data := { st.synced_data with
            assets := asetdefault (toString r.id) [] st.synced_data.assets } }
              : RunState).target).getD []) a.name) = false := by
    intro a ha
    rw [key, hsnap]
    exact hassets a ha
  obtain ⟨g1, g2, g3, g4, g5⟩ := sync_assets_go_all_skip env r.id (toString r.id)
    r.tag_name now
    ((alookup r.tag_name ({ st with synced_data := { st.synced_data with
      assets := asetdefault (toString r.id) [] st.synced_data.assets } }
        : RunState).target).getD [])
    r.assets false
    { st with synced_data := { st.synced_data with
      assets := asetdefault (toString r.id) [] st.synced_data.assets } }
    hconv
  exact ⟨g1, g2, g3, g4, g5⟩

theorem process_release_no_commit (env : RunEnv) (owner repo : String)
    (now : Nat) (r : SourceRelease) (st : RunState)
    (hc : (sync_source_code env owner repo r.id now r.tag_name
      (get_or_create_release env r
        (st.emit (.beginRelease r.id r.created_at))).2).1 = false)
    (ha : (sync_release_assets env now r
      (sync_source_code env owner repo r.id now r.tag_name
        (get_or_create_release env r
          (st.emit (.beginRelease r.id r.created_at))).2).2).1 = false) :
    ∃ seg, (process_release env owner repo now r st).trace = st.trace ++ seg ∧
      Event.commitLedger r.id ∉ seg := by
  simp only [process_release]
  by_cases hg : (get_or_create_release env r
      (st.emit (.beginRelease r.id r.created_at))).1 = true
  · rw [if_pos hg]
    set g := get_or_create_release env r (st.emit (.beginRelease r.id r.created_at))
      with hgdef
    have hgtrace : g.2.trace = st.trace ++ [.beginRelease r.id r.created_at] := by
      rw [hgdef, get_or_create_trace, RunState.emit_trace]
    set pc := sync_source_code env owner repo r.id now r.tag_name g.2 with hpcdef
    set pa := sync_release_assets env now r pc.2 with hpadef
    have hcond : (pc.1 || pa.1) = false := by
      rw [hc, ha]
      rfl
    rw [hcond, if_neg Bool.false_ne_true]
    have hct := sync_source_code_trace env owner repo r.id now r.tag_name g.2
    rw [← hpcdef] at hct
    obtain ⟨s1, hc1, _, hc3⟩ := hct
    have hat := sync_release_assets_trace env now r pc.2
    rw [← hpadef] at hat
    obtain ⟨s2, ha1, _, ha3⟩ := hat
    refine ⟨.beginRelease r.id r.created_at :: (s1 ++ s2 ++ [.savePoint r.id]),
      ?_, ?_⟩
    · rw [RunState.doSave_trace]
      have hproj : ({ pa.2 with synced_data := { pa.2.synced_data with
          releases := aset (toString r.id) ⟨r.tag_name, now⟩
            pa.2.synced_data.releases } } : RunState).trace = pa.2.trace := rfl
      rw [hproj, ha1, hc1, hgtrace]
      simp
    · intro hmem
      rcases List.mem_cons.mp hmem with heq | hmem
      · simp at heq
      · rcases List.mem_append.mp hmem with hmem | hmem
        · rcases List.mem_append.mp hmem with hmem | hmem
          · exact absurd rfl (ne_commit_of_isCommit_false (hc3 _ hmem).2.1).symm
          · exact absurd rfl (ne_commit_of_isCommit_false (ha3 _ hmem).2.1).symm
        · simp at hmem
  · rw [if_neg hg]
    refine ⟨[.beginRelease r.id r.created_at], ?_, ?_⟩
    · rw [get_or_create_trace, RunState.emit_trace]
    · intro hmem
      simp at hmem

/-- **C10.** A source-code archive already present in the target release's
asset listing but absent from the ledger is backfilled: `sync_source_code`
adds the ledger entry and saves the ledger, yet reports "no change"; and
in a release whose binary assets are also all current, this ledger
mutation alone triggers no external commit. -/
theorem archive_backfill_no_commit (env : RunEnv) (owner repo : String)
    (now : Nat) (r : SourceRelease) (st : RunState)
    (listing : List TargetAsset) (f0 : String)
    (hlist : alookup r.tag_name st.target = some listing)
    (hex : ∀ f ∈ source_code_filenames r.tag_name,
      f ∈ listing.map TargetAsset.name)
    (hf0 : f0 ∈ source_code_filenames r.tag_name)
    (hmiss : alookup f0
      ((alookup r.tag_name st.synced_data.source_codes).getD []) = none)
    (hassets : ∀ a ∈ r.assets,
      need_sync ((alookup (toString r.id) st.synced_data.assets).getD []) a
        (dict_by_name listing a.name) = false) :
    (sync_source_code env owner repo r.id now r.tag_name st).1 = false ∧
    alookup f0 ((alookup r.tag_name (sync_source_code env owner repo r.id now
      r.tag_name st).2.synced_data.source_codes).getD []) = some ⟨true, now⟩ ∧
    st.saves < (sync_source_code env owner repo r.id now r.tag_name st).2.saves ∧
    ∃ seg, (process_release env owner repo now r st).trace = st.trace ++ seg ∧
      Event.commitLedger r.id ∉ seg := by
  obtain ⟨w1, _, _, _, _, w6, w7⟩ :=
    sync_source_code_all_exist env owner repo r.id now r.tag_name st listing
      hlist hex
  refine ⟨w1, ?_, w7 ⟨f0, hf0, hmiss⟩, ?_⟩
  · rw [w6 f0 hf0, hmiss]
    rfl
  · have hsome : (alookup r.tag_name
        (st.emit (.beginRelease r.id r.created_at)).target).isSome = true := by
      rw [RunState.emit_target, hlist]
      rfl
    have hgeq : get_or_create_release env r
        (st.emit (.beginRelease r.id r.created_at)) =
        (true, st.emit (.beginRelease r.id r.created_at)) := by
      unfold get_or_create_release
      rw [if_pos hsome]
    have hlist' : alookup r.tag_name
        (st.emit (.beginRelease r.id r.created_at)).target = some listing := by
      rw [RunState.emit_target]
      exact hlist
    obtain ⟨v1, v2, _, v4, _, _, _⟩ :=
      sync_source_code_all_exist env owner repo r.id now r.tag_name
        (st.emit (.beginRelease r.id r.created_at)) listing hlist' hex
    have hc : (sync_source_code env owner repo r.id now r.tag_name
        (get_or_create_release env r
          (st.emit (.beginRelease r.id r.created_at))).2).1 = false := by
      rw [hgeq]
      exact v1
    have ha : (sync_release_assets env now r
        (sync_source_code env owner repo r.id now r.tag_name
          (get_or_create_release env r
            (st.emit (.beginRelease r.id r.created_at))).2).2).1 = false := by
      rw [hgeq]
      have hlist'' : alookup r.tag_name
          (sync_source_code env owner repo r.id now r.tag_name
            (st.emit (.beginRelease r.id r.created_at))).2.target =
          some listing := by
        rw [v2, RunState.emit_target]
        exact hlist
      refine (sync_release_assets_all_skip env now r _ listing hlist'' ?_).1
      intro a haa
      rw [show (alookup (toString r.id)
          (sync_source_code env owner repo r.id now r.tag_name
            (st.emit (.beginRelease r.id r.created_at))).2.synced_data.assets).getD
            [] =
          (alookup (toString r.id) st.synced_data.assets).getD [] from by
        rw [v4, RunState.emit_synced_data]]
      exact hassets a haa
    exact process_release_no_commit env owner repo now r st hc ha

/-- Witness for C10: target already holds both archives of `v1`, the ledger
does not; backfill adds the zip's entry with no change reported. -/
theorem archive_backfill_no_commit_witness :
    (sync_source_code ⟨3, fun _ _ _ => .err, fun _ => false, fun _ => true⟩
      "o" "rp" 1 7 "v1"
      ⟨empty_synced_data,
        [("v1", [⟨"SourceCode_v1.zip", 1, none⟩, ⟨"SourceCode_v1.tar.gz", 2, none⟩])],
        0, 0, []⟩).1 = false ∧
    alookup "SourceCode_v1.zip" ((alookup "v1"
      (sync_source_code ⟨3, fun _ _ _ => .err, fun _ => false, fun _ => true⟩
        "o" "rp" 1 7 "v1"
        ⟨empty_synced_data,
          [("v1", [⟨"SourceCode_v1.zip", 1, none⟩, ⟨"SourceCode_v1.tar.gz", 2, none⟩])],
          0, 0, []⟩).2.synced_data.source_codes).getD []) = some ⟨true, 7⟩ := by
  have h := archive_backfill_no_commit
    ⟨3, fun _ _ _ => .err, fun _ => false, fun _ => true⟩ "o" "rp" 7
    ⟨1, "v1", none, none, false, false, 0, []⟩
    ⟨empty_synced_data,
      [("v1", [⟨"SourceCode_v1.zip", 1, none⟩, ⟨"SourceCode_v1.tar.gz", 2, none⟩])],
      0, 0, []⟩
    [⟨"SourceCode_v1.zip", 1, none⟩, ⟨"SourceCode_v1.tar.gz", 2, none⟩]
    "SourceCode_v1.zip" (by decide) (by decide) (by decide) (by decide)
    (by intro a ha; simp at ha)
  exact ⟨h.1, h.2.1⟩

/-! ### Claim C2: infrastructure — listings, faithful uploads, fully-synced -/

theorem alookup_aset_ne {α : Type} (k k' : String) (v : α)
    (m : List (String × α)) (h : k' ≠ k) :
    alookup k (aset k' v m) = alookup k m := by
  rw [alookup_aset, if_neg h]

theorem dict_by_name_fold_delete (n m : String) (hne : m ≠ n) :
    ∀ (l : List TargetAsset) (acc : Option TargetAsset),
      (delete_existing_asset m l).foldl
        (fun acc a => if a.name = n then some a else acc) acc =
      l.foldl (fun acc a => if a.name = n then some a else acc) acc := by
  intro l
  induction l with
  | nil => intro acc; rfl
  | cons a rest ih =>
    intro acc
    simp only [delete_existing_asset]
    by_cases ha : a.name = m
    · rw [if_pos ha, List.foldl_cons, if_neg (by rw [ha]; exact hne)]
    · rw [if_neg ha, List.foldl_cons, List.foldl_cons]
      exact ih _

theorem dict_by_name_delete_ne (n m : String) (hne : m ≠ n)
    (l : List TargetAsset) :
    dict_by_name (delete_existing_asset m l) n = dict_by_name l n :=
  dict_by_name_fold_delete n m hne l none

theorem dict_by_name_append_single (l : List TargetAsset) (u : TargetAsset)
    (n : String) :
    dict_by_name (l ++ [u]) n =
      if u.name = n then some u else dict_by_name l n := by
  unfold dict_by_name
  rw [List.foldl_append]
  rfl

theorem dict_by_name_isSome_iff :
    ∀ (l : List TargetAsset) (n : String) (acc : Option TargetAsset),
      (l.foldl (fun acc a => if a.name = n then some a else acc) acc).isSome =
        (acc.isSome || n ∈ l.map TargetAsset.name) := by
  intro l
  induction l with
  | nil => intro n acc; simp
  | cons a rest ih =>
    intro n acc
    rw [List.foldl_cons, ih]
    by_cases ha : a.name = n
    · simp [ha]
    · simp [ha, Ne.symm ha]

theorem mem_names_iff_dict (l : List TargetAsset) (n : String) :
    n ∈ l.map TargetAsset.name ↔ (dict_by_name l n).isSome = true := by
  unfold dict_by_name
  rw [dict_by_name_isSome_iff l n none]
  simp

theorem retry_upload_success0 (env : RunEnv) (tag asset_name : String)
    (listing : List TargetAsset) (s : Nat) (u : Option Int)
    (h0 : env.upload tag asset_name 0 = .ok s u) (hrc : 1 ≤ env.retry_count) :
    retry_upload env tag asset_name listing =
      ⟨some ⟨asset_name, s, u⟩,
       delete_existing_asset asset_name listing ++ [⟨asset_name, s, u⟩], 1⟩ := by
  unfold retry_upload
  obtain ⟨f, hf⟩ : ∃ f, env.retry_count = f + 1 :=
    ⟨env.retry_count - 1, by omega⟩
  rw [hf]
  simp only [retry_upload_go]
  rw [h0]

theorem need_sync_false_elim (la : List (String × AssetRecord)) (a : SourceAsset)
    (t? : Option TargetAsset) (h : need_sync la a t? = false) :
    (alookup (asset_key a.name a.size) la).isSome = true ∧
    ∃ t, t? = some t ∧ a.size = t.size ∧
      time_gt a.updated_at t.updated_at = false := by
  unfold need_sync at h
  by_cases h1 : (alookup (asset_key a.name a.size) la).isNone = true
  · rw [if_pos h1] at h
    cases h
  · rw [if_neg h1] at h
    refine ⟨by simpa [Option.isNone_iff_eq_none, ← Option.ne_none_iff_isSome] using h1, ?_⟩
    cases t? with
    | none => cases h
    | some t =>
      have h' : (if a.size ≠ t.size then true
          else time_gt a.updated_at t.updated_at) = false := h
      by_cases hsz : a.size ≠ t.size
      · rw [if_pos hsz] at h'
        cases h'
      · rw [if_neg hsz] at h'
        push_neg at hsz
        exact ⟨t, rfl, hsz, h'⟩

theorem need_sync_false_of_synced (am : List (String × AssetRecord))
    (a : SourceAsset) (t : TargetAsset)
    (h1 : (alookup (asset_key a.name a.size) am).isSome = true)
    (h2 : a.size = t.size) (h3 : time_gt a.updated_at t.updated_at = false) :
    need_sync am a (some t) = false := by
  unfold need_sync
  obtain ⟨rec, hrec⟩ := Option.isSome_iff_exists.mp h1
  rw [hrec]
  simp [h2, h3]

/-- A successful, faithful upload answer for source asset `a`: stored size
equals the source size and the stored timestamp is not strictly older than
the source's. -/
def upload_ok_faithful (o : UploadOutcome) (a : SourceAsset) : Bool :=
  match o with
  | .ok s u => s == a.size && !(time_gt a.updated_at u)
  | _ => false

theorem is_ok_elim {o : UploadOutcome} (h : is_ok o = true) :
    ∃ s u, o = .ok s u := by
  cases o with
  | ok s u => exact ⟨s, u, rfl⟩
  | retNone => cases h
  | conflict => cases h
  | err => cases h

theorem upload_ok_faithful_elim {o : UploadOutcome} {a : SourceAsset}
    (h : upload_ok_faithful o a = true) :
    ∃ s u, o = .ok s u ∧ s = a.size ∧ time_gt a.updated_at u = false := by
  cases o with
  | ok s u =>
    simp only [upload_ok_faithful, Bool.and_eq_true, beq_iff_eq,
      Bool.not_eq_true'] at h
    exact ⟨s, u, rfl, h.1, h.2⟩
  | retNone => cases h
  | conflict => cases h
  | err => cases h

theorem natToString_inj : Function.Injective (fun n : Nat => toString n) := by
  intro m n h
  have hp := congrArg (fun s : String => parse_digits s.data) h
  simpa [parse_digits_toString] using hp

theorem sids_nodup (l : List SourceRelease)
    (h : (l.map SourceRelease.id).Nodup) :
    (l.map (fun r => toString r.id)).Nodup := by
  have heq : l.map (fun r => toString r.id) =
      (l.map SourceRelease.id).map (fun n => toString n) := by
    simp [List.map_map]
  rw [heq]
  exact h.map natToString_inj

/-- The ledger's `releases` mapping with timestamps erased. -/
def releases_tags (m : List (String × ReleaseRecord)) : List (String × String) :=
  m.map (fun kv => (kv.1, kv.2.tag_name))

theorem releases_tags_aset (k : String) (v : ReleaseRecord)
    (m : List (String × ReleaseRecord)) (rec : ReleaseRecord)
    (hk : alookup k m = some rec) (htag : rec.tag_name = v.tag_name) :
    releases_tags (aset k v m) = releases_tags m := by
  induction m with
  | nil => cases hk
  | cons kv rest ih =>
    obtain ⟨k', v'⟩ := kv
    by_cases hkk : k' = k
    · subst hkk
      simp only [alookup, if_pos rfl] at hk
      injection hk with hk
      subst hk
      simp [aset, releases_tags, htag]
    · simp only [alookup, if_neg hkk] at hk
      have hrec := ih hk
      simp only [aset, if_neg hkk, releases_tags, List.map_cons]
      unfold releases_tags at hrec
      rw [hrec]

/-- Release `r` is fully mirrored in ledger `sd` and target state `target`:
the target release exists; the ledger records the release under its id with
its tag; both archives appear in the target listing and in the ledger; and
every source asset has its identity key in the ledger while the live
target copy of that name matches in size and is not older. -/
def release_fully_synced (r : SourceRelease) (sd : SyncedData)
    (target : List (String × List TargetAsset)) : Prop :=
  ∃ listing, alookup r.tag_name target = some listing ∧
    (∃ rec, alookup (toString r.id) sd.releases = some rec ∧
      rec.tag_name = r.tag_name) ∧
    (∃ cm, alookup r.tag_name sd.source_codes = some cm ∧
      ∀ f ∈ source_code_filenames r.tag_name,
        (dict_by_name listing f).isSome = true ∧
        (alookup f cm).isSome = true) ∧
    (∃ am, alookup (toString r.id) sd.assets = some am ∧
      ∀ a ∈ r.assets, (alookup (asset_key a.name a.size) am).isSome = true ∧
        ∃ t, dict_by_name listing a.name = some t ∧ a.size = t.size ∧
          time_gt a.updated_at t.updated_at = false)

theorem release_fully_synced_frame (r : SourceRelease) (sd sd' : SyncedData)
    (t t' : List (String × List TargetAsset))
    (h1 : alookup r.tag_name t' = alookup r.tag_name t)
    (h2 : alookup (toString r.id) sd'.releases =
      alookup (toString r.id) sd.releases)
    (h3 : alookup r.tag_name sd'.source_codes =
      alookup r.tag_name sd.source_codes)
    (h4 : alookup (toString r.id) sd'.assets = alookup (toString r.id) sd.assets)
    (h : release_fully_synced r sd t) : release_fully_synced r sd' t' := by
  obtain ⟨listing, hl, ⟨rec, hr1, hr2⟩, ⟨cm, hc1, hc2⟩, ⟨am, ha1, ha2⟩⟩ := h
  exact ⟨listing, by rw [h1]; exact hl, ⟨rec, by rw [h2]; exact hr1, hr2⟩,
    ⟨cm, by rw [h3]; exact hc1, hc2⟩, ⟨am, by rw [h4]; exact ha1, ha2⟩⟩

theorem alookup_asetdefault_ne {α : Type} (k k' : String) (v : α)
    (m : List (String × α)) (h : k' ≠ k) :
    alookup k (asetdefault k' v m) = alookup k m := by
  unfold asetdefault
  split_ifs
  · rfl
  · exact alookup_aset_ne k k' v m h

theorem get_or_create_frame (env : RunEnv) (r : SourceRelease) (st : RunState) :
    ∀ tg, tg ≠ r.tag_name →
      alookup tg (get_or_create_release env r st).2.target =
        alookup tg st.target := by
  intro tg htg
  unfold get_or_create_release
  split_ifs
  · rfl
  · exact alookup_aset_ne tg r.tag_name [] st.target (Ne.symm htg)
  · rfl

theorem sync_code_go_frame (env : RunEnv) (rid : Nat) (tag : String) (now : Nat)
    (existing : List String) :
    ∀ (files : List (String × String)) (has : Bool) (st : RunState),
      (∀ tg, tg ≠ tag →
        alookup tg (sync_code_go env rid tag now existing files has st).2.target =
          alookup tg st.target) ∧
      (∀ tg, tg ≠ tag →
        alookup tg (sync_code_go env rid tag now existing files has
            st).2.synced_data.source_codes =
          alookup tg st.synced_data.source_codes) := by
  intro files
  induction files with
  | nil => intro has st; exact ⟨fun _ _ => rfl, fun _ _ => rfl⟩
  | cons fu rest ih =>
    intro has st
    obtain ⟨filename, url⟩ := fu
    simp only [sync_code_go, RunState.emit_synced_data]
    by_cases hex : filename ∈ existing
    · rw [if_pos hex]
      by_cases hcm : (alookup filename
          ((alookup tag st.synced_data.source_codes).getD [])).isSome = true
      · rw [if_pos hcm]
        exact ih has _
      · rw [if_neg hcm]
        obtain ⟨g1, g2⟩ := ih has _
        refine ⟨fun tg htg => ?_, fun tg htg => ?_⟩
        · rw [g1 tg htg]
          rfl
        · rw [g2 tg htg]
          simp only [RunState.doSave_synced_data]
          exact alookup_aset_ne tg tag _ _ (Ne.symm htg)
    · rw [if_neg hex]
      by_cases hdl : env.download_ok url = true
      · rw [if_pos hdl]
        split
        · obtain ⟨g1, g2⟩ := ih true _
          refine ⟨fun tg htg => ?_, fun tg htg => ?_⟩
          · rw [g1 tg htg]
            simp only [RunState.emit_target, RunState.doSave_target]
            exact alookup_aset_ne tg tag _ _ (Ne.symm htg)
          · rw [g2 tg htg]
            simp only [RunState.emit_synced_data, RunState.doSave_synced_data]
            exact alookup_aset_ne tg tag _ _ (Ne.symm htg)
        · obtain ⟨g1, g2⟩ := ih has _
          refine ⟨fun tg htg => ?_, fun tg htg => ?_⟩
          · rw [g1 tg htg]
            exact alookup_aset_ne tg tag _ _ (Ne.symm htg)
          · rw [g2 tg htg]
      · rw [if_neg hdl]
        exact ih has _

theorem sync_assets_go_frame (env : RunEnv) (rid : Nat) (sid tag : String)
    (now : Nat) (snap : List TargetAsset) :
    ∀ (l : List SourceAsset) (has : Bool) (st : RunState),
      (∀ tg, tg ≠ tag →
        alookup tg (sync_assets_go env rid sid tag now snap l has st).2.target =
          alookup tg st.target) ∧
      (∀ sid', sid' ≠ sid →
        alookup sid' (sync_assets_go env rid sid tag now snap l has
            st).2.synced_data.assets =
          alookup sid' st.synced_data.assets) ∧
      (sync_assets_go env rid sid tag now snap l has
          st).2.synced_data.source_codes = st.synced_data.source_codes ∧
      (sync_assets_go env rid sid tag now snap l has
          st).2.synced_data.releases = st.synced_data.releases := by
  intro l
  induction l with
  | nil => intro has st; exact ⟨fun _ _ => rfl, fun _ _ => rfl, rfl, rfl⟩
  | cons a rest ih =>
    intro has st
    simp only [sync_assets_go, RunState.emit_synced_data]
    by_cases hns : need_sync ((alookup sid st.synced_data.assets).getD [])
        a (dict_by_name snap a.name) = true
    · rw [if_pos hns]
      by_cases hdl : env.download_ok a.browser_download_url = true
      · rw [if_pos hdl]
        split
        · obtain ⟨g1, g2, g3, g4⟩ := ih true _
          refine ⟨fun tg htg => ?_, fun sid' hsid => ?_, ?_, ?_⟩
          · rw [g1 tg htg]
            simp only [RunState.emit_target, RunState.doSave_target]
            exact alookup_aset_ne tg tag _ _ (Ne.symm htg)
          · rw [g2 sid' hsid]
            simp only [RunState.emit_synced_data, RunState.doSave_synced_data]
            exact alookup_aset_ne sid' sid _ _ (Ne.symm hsid)
          · rw [g3]
            rfl
          · rw [g4]
            rfl
        · obtain ⟨g1, g2, g3, g4⟩ := ih has _
          refine ⟨fun tg htg => ?_, fun sid' hsid => ?_, g3, g4⟩
          · rw [g1 tg htg]
            exact alookup_aset_ne tg tag _ _ (Ne.symm htg)
          · rw [g2 sid' hsid]
      · rw [if_neg hdl]
        exact ih has _
    · rw [if_neg hns]
      exact ih has _

theorem sync_source_code_frame (env : RunEnv) (owner repo : String) (rid : Nat)
    (now : Nat) (tag : String) (st : RunState) :
    (∀ tg, tg ≠ tag →
      alookup tg (sync_source_code env owner repo rid now tag st).2.target =
        alookup tg st.target) ∧
    (∀ tg, tg ≠ tag →
      alookup tg (sync_source_code env owner repo rid now tag
          st).2.synced_data.source_codes =
        alookup tg st.synced_data.source_codes) := by
  obtain ⟨g1, g2⟩ := sync_code_go_frame env rid tag now
    (((alookup tag st.target).getD []).map TargetAsset.name)
    (source_code_files owner repo tag) false
    { st with synced_data := { st.synced_data with
        source_codes := asetdefault tag [] st.synced_data.source_codes } }
  refine ⟨fun tg htg => g1 tg htg, fun tg htg => ?_⟩
  have h2 : alookup tg (sync_source_code env owner repo rid now tag
      st).2.synced_data.source_codes =
      alookup tg (asetdefault tag [] st.synced_data.source_codes) := g2 tg htg
  rw [h2]
  exact alookup_asetdefault_ne tg tag _ _ (Ne.symm htg)

theorem sync_release_assets_frame (env : RunEnv) (now : Nat) (r : SourceRelease)
    (st : RunState) :
    (∀ tg, tg ≠ r.tag_name →
      alookup tg (sync_release_assets env now r st).2.target =
        alookup tg st.target) ∧
    (∀ sid', sid' ≠ toString r.id →
      alookup sid' (sync_release_assets env now r st).2.synced_data.assets =
        alookup sid' st.synced_data.assets) ∧
    (sync_release_assets env now r st).2.synced_data.source_codes =
      st.synced_data.source_codes ∧
    (sync_release_assets env now r st).2.synced_data.releases =
      st.synced_data.releases := by
  obtain ⟨g1, g2, g3, g4⟩ := sync_assets_go_frame env r.id (toString r.id)
    r.tag_name now
    ((alookup r.tag_name ({ st with synced_data := { st.synced_data with
      assets := asetdefault (toString r.id) [] st.synced_data.assets } }
        : RunState).target).getD [])
    r.assets false
    { st with synced_data := { st.synced_data with
      assets := asetdefault (toString r.id) [] st.synced_data.assets } }
  refine ⟨fun tg htg => g1 tg htg, fun sid' hsid => ?_, g3, g4⟩
  have h2 : alookup sid' (sync_release_assets env now r
      st).2.synced_data.assets =
      alookup sid' (asetdefault (toString r.id) [] st.synced_data.assets) :=
    g2 sid' hsid
  rw [h2]
  exact alookup_asetdefault_ne sid' (toString r.id) _ _ (Ne.symm hsid)

theorem process_release_frame (env : RunEnv) (owner repo : String) (now : Nat)
    (r : SourceRelease) (st : RunState) :
    (∀ tg, tg ≠ r.tag_name →
      alookup tg (process_release env owner repo now r st).target =
        alookup tg st.target) ∧
    (∀ tg, tg ≠ r.tag_name →
      alookup tg (process_release env owner repo now r
          st).synced_data.source_codes =
        alookup tg st.synced_data.source_codes) ∧
    (∀ sid', sid' ≠ toString r.id →
      alookup sid' (process_release env owner repo now r
          st).synced_data.assets = alookup sid' st.synced_data.assets) ∧
    (∀ sid', sid' ≠ toString r.id →
      alookup sid' (process_release env owner repo now r
          st).synced_data.releases = alookup sid' st.synced_data.releases) := by
  simp only [process_release]
  by_cases hg : (get_or_create_release env r
      (st.emit (.beginRelease r.id r.created_at))).1 = true
  · rw [if_pos hg]
    set g := get_or_create_release env r (st.emit (.beginRelease r.id r.created_at))
      with hgdef
    set pc := sync_source_code env owner repo r.id now r.tag_name g.2 with hpcdef
    set pa := sync_release_assets env now r pc.2 with hpadef
    have hgf : ∀ tg, tg ≠ r.tag_name →
        alookup tg g.2.target = alookup tg st.target := by
      intro tg htg
      rw [hgdef, get_or_create_frame env r _ tg htg]
      rfl
    have hgsd : g.2.synced_data = st.synced_data := by
      rw [hgdef, get_or_create_synced_data]
      rfl
    have hcf := sync_source_code_frame env owner repo r.id now r.tag_name g.2
    rw [← hpcdef] at hcf
    have haf := sync_release_assets_frame env now r pc.2
    rw [← hpadef] at haf
    have hcassets := (sync_code_go_assets_eq env r.id r.tag_name now
      (((alookup r.tag_name g.2.target).getD []).map TargetAsset.name)
      (source_code_files owner repo r.tag_name) false
      { g.2 with synced_data := { g.2.synced_data with
          source_codes := asetdefault r.tag_name [] g.2.synced_data.source_codes } })
    have hpc_assets : pc.2.synced_data.assets = g.2.synced_data.assets := by
      rw [hpcdef]
      exact hcassets.1
    have hpc_rel : pc.2.synced_data.releases = g.2.synced_data.releases := by
      rw [hpcdef]
      exact hcassets.2
    refine ⟨fun tg htg => ?_, fun tg htg => ?_, fun sid' hsid => ?_, fun sid' hsid => ?_⟩
    · have : (if (pc.1 || pa.1) = true
          then ((({ pa.2 with synced_data := { pa.2.synced_data with
            releases := aset (toString r.id) ⟨r.tag_name, now⟩
              pa.2.synced_data.releases } } : RunState).doSave r.id).emit
                (.commitLedger r.id))
          else (({ pa.2 with synced_data := { pa.2.synced_data with
            releases := aset (toString r.id) ⟨r.tag_name, now⟩
              pa.2.synced_data.releases } } : RunState).doSave r.id)).target =
          pa.2.target := by
      -- both branches project to pa.2.target
        split <;> rfl
      rw [this, haf.1 tg htg, hcf.1 tg htg, hgf tg htg]
    · have : (if (pc.1 || pa.1) = true
          then ((({ pa.2 with synced_data := { pa.2.synced_data with
            releases := aset (toString r.id) ⟨r.tag_name, now⟩
              pa.2.synced_data.releases } } : RunState).doSave r.id).emit
                (.commitLedger r.id))
          else (({ pa.2 with synced_data := { pa.2.synced_data with
            releases := aset (toString r.id) ⟨r.tag_name, now⟩
              pa.2.synced_data.releases } } : RunState).doSave r.id)).synced_data.source_codes =
          pa.2.synced_data.source_codes := by
        split <;> rfl
      rw [this, haf.2.2.1, hcf.2 tg htg, hgsd]
    · have : (if (pc.1 || pa.1) = true
          then ((({ pa.2 with synced_data := { pa.2.synced_data with
            releases := aset (toString r.id) ⟨r.tag_name, now⟩
              pa.2.synced_data.releases } } : RunState).doSave r.id).emit
                (.commitLedger r.id))
          else (({ pa.2 with synced_data := { pa.2.synced_data with
            releases := aset (toString r.id) ⟨r.tag_name, now⟩
              pa.2.synced_data.releases } } : RunState).doSave r.id)).synced_data.assets =
          pa.2.synced_data.assets := by
        split <;> rfl
      rw [this, haf.2.1 sid' hsid, hpc_assets, hgsd]
    · have : (if (pc.1 || pa.1) = true
          then ((({ pa.2 with synced_data := { pa.2.synced_data with
            releases := aset (toString r.id) ⟨r.tag_name, now⟩
              pa.2.synced_data.releases } } : RunState).doSave r.id).emit
                (.commitLedger r.id))
          else (({ pa.2 with synced_data := { pa.2.synced_data with
            releases := aset (toString r.id) ⟨r.tag_name, now⟩
              pa.2.synced_data.releases } } : RunState).doSave r.id)).synced_data.releases =
          aset (toString r.id) ⟨r.tag_name, now⟩ pa.2.synced_data.releases := by
        split <;> rfl
      rw [this, alookup_aset_ne sid' (toString r.id) _ _ (Ne.symm hsid),
        haf.2.2.2, hpc_rel, hgsd]
  · rw [if_neg hg]
    have hgsd : (get_or_create_release env r
        (st.emit (.beginRelease r.id r.created_at))).2.synced_data =
        st.synced_data := by
      rw [get_or_create_synced_data]
      rfl
    refine ⟨fun tg htg => ?_, fun tg htg => ?_, fun sid' hsid => ?_,
      fun sid' hsid => ?_⟩
    · rw [get_or_create_frame env r _ tg htg]
      rfl
    · rw [hgsd]
    · rw [hgsd]
    · rw [hgsd]

theorem sync_code_go_all_recorded (env : RunEnv) (rid : Nat) (tag : String)
    (now : Nat) (existing : List String) :
    ∀ (files : List (String × String)) (has : Bool) (st : RunState),
      (∀ fu ∈ files, fu.1 ∈ existing) →
      (∀ fu ∈ files, (alookup fu.1
        ((alookup tag st.synced_data.source_codes).getD [])).isSome = true) →
      (sync_code_go env rid tag now existing files has st).1 = has ∧
      (sync_code_go env rid tag now existing files has st).2.synced_data =
        st.synced_data ∧
      (sync_code_go env rid tag now existing files has st).2.target =
        st.target ∧
      (sync_code_go env rid tag now existing files has st).2.transfers =
        st.transfers := by
  intro files
  induction files with
  | nil => intro has st _ _; exact ⟨rfl, rfl, rfl, rfl⟩
  | cons fu rest ih =>
    intro has st hex hrec
    obtain ⟨filename, url⟩ := fu
    simp only [sync_code_go, RunState.emit_synced_data]
    rw [if_pos (hex _ (List.mem_cons_self _ _)),
      if_pos (hrec _ (List.mem_cons_self _ _))]
    exact ih has _ (fun fu' h => hex fu' (List.mem_cons_of_mem _ h))
      (fun fu' h => hrec fu' (List.mem_cons_of_mem _ h))

theorem sync_source_code_all_recorded (env : RunEnv) (owner repo : String)
    (rid : Nat) (now : Nat) (tag : String) (st : RunState)
    (listing : List TargetAsset) (cm : List (String × SourceCodeRecord))
    (hlist : alookup tag st.target = some listing)
    (hcm : alookup tag st.synced_data.source_codes = some cm)
    (hex : ∀ f ∈ source_code_filenames tag, f ∈ listing.map TargetAsset.name)
    (hrec : ∀ f ∈ source_code_filenames tag, (alookup f cm).isSome = true) :
    (sync_source_code env owner repo rid now tag st).1 = false ∧
    (sync_source_code env owner repo rid now tag st).2.synced_data =
      st.synced_data ∧
    (sync_source_code env owner repo rid now tag st).2.target = st.target ∧
    (sync_source_code env owner repo rid now tag st).2.transfers =
      st.transfers := by
  have hsc : asetdefault tag ([] : List (String × SourceCodeRecord))
      st.synced_data.source_codes = st.synced_data.source_codes :=
    alookup_asetdefault_of_isSome tag [] _ (by rw [hcm]; rfl)
  have hst1 : ({ st with synced_data := { st.synced_data with
      source_codes := asetdefault tag [] st.synced_data.source_codes } }
        : RunState) = st := by
    rw [hsc]
  have hcall : sync_source_code env owner repo rid now tag st =
      sync_code_go env rid tag now
        (((alookup tag st.target).getD []).map TargetAsset.name)
        (source_code_files owner repo tag) false st := by
    show sync_code_go env rid tag now
        (((alookup tag st.target).getD []).map TargetAsset.name)
        (source_code_files owner repo tag) false
        ({ st with synced_data := { st.synced_data with
          source_codes := asetdefault tag [] st.synced_data.source_codes } })
      = _
    rw [hst1]
  have hex' : ∀ fu ∈ source_code_files owner repo tag,
      fu.1 ∈ ((alookup tag st.target).getD []).map TargetAsset.name := by
    intro fu hfu
    rw [hlist]
    simp only [Option.getD_some]
    refine hex fu.1 ?_
    rw [← source_code_files_names owner repo tag]
    exact List.mem_map_of_mem Prod.fst hfu
  have hrec' : ∀ fu ∈ source_code_files owner repo tag,
      (alookup fu.1
        ((alookup tag st.synced_data.source_codes).getD [])).isSome = true := by
    intro fu hfu
    rw [hcm]
    simp only [Option.getD_some]
    refine hrec fu.1 ?_
    rw [← source_code_files_names owner repo tag]
    exact List.mem_map_of_mem Prod.fst hfu
  obtain ⟨g1, g2, g3, g4⟩ := sync_code_go_all_recorded env rid tag now
    (((alookup tag st.target).getD []).map TargetAsset.name)
    (source_code_files owner repo tag) false st hex' hrec'
  rw [hcall]
  exact ⟨g1, g2, g3, g4⟩

theorem process_release_synced_skip (env : RunEnv) (owner repo : String)
    (now : Nat) (r : SourceRelease) (st : RunState)
    (hfs : release_fully_synced r st.synced_data st.target) :
    (process_release env owner repo now r st).synced_data =
      { st.synced_data with
        releases := aset (toString r.id) ⟨r.tag_name, now⟩ st.synced_data.releases } ∧
    (process_release env owner repo now r st).target = st.target ∧
    (process_release env owner repo now r st).transfers = st.transfers := by
  obtain ⟨listing, hl, ⟨rec0, hr1, hr2⟩, ⟨cm, hc1, hc2⟩, ⟨am, ha1, ha2⟩⟩ := hfs
  have hsome : (alookup r.tag_name
      (st.emit (.beginRelease r.id r.created_at)).target).isSome = true := by
    rw [RunState.emit_target, hl]
    rfl
  have hgeq : get_or_create_release env r
      (st.emit (.beginRelease r.id r.created_at)) =
      (true, st.emit (.beginRelease r.id r.created_at)) := by
    unfold get_or_create_release
    rw [if_pos hsome]
  have hc0 := sync_source_code_all_recorded env owner repo r.id now r.tag_name
    (st.emit (.beginRelease r.id r.created_at)) listing cm
    (by rw [RunState.emit_target]; exact hl)
    (by rw [RunState.emit_synced_data]; exact hc1)
    (fun f hf => (mem_names_iff_dict listing f).mpr (hc2 f hf).1)
    (fun f hf => (hc2 f hf).2)
  simp only [process_release]
  set g := get_or_create_release env r (st.emit (.beginRelease r.id r.created_at))
    with hgdef
  set pc := sync_source_code env owner repo r.id now r.tag_name g.2 with hpcdef
  set pa := sync_release_assets env now r pc.2 with hpadef
  have hgpair : g = (true, st.emit (.beginRelease r.id r.created_at)) := by
    rw [hgdef]
    exact hgeq
  have hg1 : g.1 = true := by rw [hgpair]
  rw [if_pos hg1]
  have c1 : pc.1 = false := by
    rw [hpcdef, hgpair]
    exact hc0.1
  have c2 : pc.2.synced_data = st.synced_data := by
    rw [hpcdef, hgpair]
    exact hc0.2.1
  have c3 : pc.2.target = st.target := by
    rw [hpcdef, hgpair]
    exact hc0.2.2.1
  have c4 : pc.2.transfers = st.transfers := by
    rw [hpcdef, hgpair]
    exact hc0.2.2.2
  have hl2 : alookup r.tag_name pc.2.target = some listing := by
    rw [c3]
    exact hl
  have hskip : ∀ a ∈ r.assets,
      need_sync ((alookup (toString r.id) pc.2.synced_data.assets).getD []) a
        (dict_by_name listing a.name) = false := by
    intro a ha
    obtain ⟨hkey, t, ht, hsz, htime⟩ := ha2 a ha
    rw [c2, ha1, Option.getD_some, ht]
    exact need_sync_false_of_synced am a t hkey hsz htime
  have ha0 := sync_release_assets_all_skip env now r pc.2 listing hl2 hskip
  have a1 : pa.1 = false := by
    rw [hpadef]
    exact ha0.1
  have a2 : pa.2.synced_data = pc.2.synced_data := by
    rw [hpadef, ha0.2.1]
    have hsm : (alookup (toString r.id) pc.2.synced_data.assets).isSome = true := by
      rw [c2, ha1]
      rfl
    rw [alookup_asetdefault_of_isSome _ _ _ hsm]
  have a3 : pa.2.target = pc.2.target := by
    rw [hpadef]
    exact ha0.2.2.1
  have a4 : pa.2.transfers = pc.2.transfers := by
    rw [hpadef]
    exact ha0.2.2.2.1
  refine ⟨?_, ?_, ?_⟩
  · have hif : (if (pc.1 || pa.1) = true
        then ((({ pa.2 with synced_data := { pa.2.synced_data with
          releases := aset (toString r.id) ⟨r.tag_name, now⟩
            pa.2.synced_data.releases } } : RunState).doSave r.id).emit
              (.commitLedger r.id))
        else (({ pa.2 with synced_data := { pa.2.synced_data with
          releases := aset (toString r.id) ⟨r.tag_name, now⟩
            pa.2.synced_data.releases } } : RunState).doSave r.id)).synced_data =
        { pa.2.synced_data with
          releases := aset (toString r.id) ⟨r.tag_name, now⟩
            pa.2.synced_data.releases } := by
      split <;> rfl
    rw [hif, a2, c2]
  · have hif : (if (pc.1 || pa.1) = true
        then ((({ pa.2 with synced_data := { pa.2.synced_data with
          releases := aset (toString r.id) ⟨r.tag_name, now⟩
            pa.2.synced_data.releases } } : RunState).doSave r.id).emit
              (.commitLedger r.id))
        else (({ pa.2 with synced_data := { pa.2.synced_data with
          releases := aset (toString r.id) ⟨r.tag_name, now⟩
            pa.2.synced_data.releases } } : RunState).doSave r.id)).target =
        pa.2.target := by
      split <;> rfl
    rw [hif, a3, c3]
  · have hif : (if (pc.1 || pa.1) = true
        then ((({ pa.2 with synced_data := { pa.2.synced_data with
          releases := aset (toString r.id) ⟨r.tag_name, now⟩
            pa.2.synced_data.releases } } : RunState).doSave r.id).emit
              (.commitLedger r.id))
        else (({ pa.2 with synced_data := { pa.2.synced_data with
          releases := aset (toString r.id) ⟨r.tag_name, now⟩
            pa.2.synced_data.releases } } : RunState).doSave r.id)).transfers =
        pa.2.transfers := by
      split <;> rfl
    rw [hif, a4, c4]

theorem run_fold_synced (env : RunEnv) (owner repo : String) (now : Nat) :
    ∀ (l : List SourceRelease) (st : RunState),
      (∀ r ∈ l, release_fully_synced r st.synced_data st.target) →
      List.Pairwise (fun r1 r2 => toString r1.id ≠ toString r2.id) l →
      (l.foldl (fun st r => process_release env owner repo now r st)
        st).synced_data.assets = st.synced_data.assets ∧
      (l.foldl (fun st r => process_release env owner repo now r st)
        st).synced_data.source_codes = st.synced_data.source_codes ∧
      releases_tags (l.foldl (fun st r => process_release env owner repo now r st)
        st).synced_data.releases = releases_tags st.synced_data.releases ∧
      (l.foldl (fun st r => process_release env owner repo now r st)
        st).target = st.target ∧
      (l.foldl (fun st r => process_release env owner repo now r st)
        st).transfers = st.transfers := by
  intro l
  induction l with
  | nil => intro st _ _; exact ⟨rfl, rfl, rfl, rfl, rfl⟩
  | cons r rest ih =>
    intro st hfs hpw
    rw [List.foldl_cons]
    obtain ⟨s1, s2, s3⟩ := process_release_synced_skip env owner repo now r st
      (hfs r (List.mem_cons_self _ _))
    obtain ⟨rec0, hr1, hr2⟩ := (hfs r (List.mem_cons_self _ _)).choose_spec.2.1
    have hfs' : ∀ r' ∈ rest, release_fully_synced r'
        (process_release env owner repo now r st).synced_data
        (process_release env owner repo now r st).target := by
      intro r' hr'
      refine release_fully_synced_frame r' st.synced_data _ st.target _
        ?_ ?_ ?_ ?_ (hfs r' (List.mem_cons_of_mem _ hr'))
      · rw [s2]
      · rw [s1]
        exact alookup_aset_ne _ _ _ _ ((List.pairwise_cons.mp hpw).1 r' hr')
      · rw [s1]
      · rw [s1]
    obtain ⟨g1, g2, g3, g4, g5⟩ := ih (process_release env owner repo now r st)
      hfs' (List.pairwise_cons.mp hpw).2
    refine ⟨?_, ?_, ?_, ?_, ?_⟩
    · rw [g1, s1]
    · rw [g2, s1]
    · rw [g3, s1]
      exact releases_tags_aset (toString r.id) ⟨r.tag_name, now⟩
        st.synced_data.releases rec0 hr1 hr2
    · rw [g4, s2]
    · rw [g5, s3]


/-! ### Claim C2: second-run idempotence (establishment side) -/

/-- The state reached after one successful first-attempt asset transfer. -/
def asset_success_state (rid : Nat) (sid tag : String) (now : Nat)
    (a : SourceAsset) (s : Nat) (u : Option Int) (st : RunState) : RunState :=
  let st1 := st.emit (.assetArtifact rid a.name)
  let st2 := { st1 with transfers := st1.transfers + 1 }
  let la := (alookup sid st.synced_data.assets).getD []
  let nl := delete_existing_asset a.name ((alookup tag st.target).getD []) ++
    [⟨a.name, s, u⟩]
  let st3 := { st2 with target := aset tag nl st2.target }
  let sd := { st3.synced_data with
    assets := aset sid (aset (asset_key a.name a.size)
      (record_of_upload a.name ⟨a.name, s, u⟩ now) la) st3.synced_data.assets }
  (({ st3 with synced_data := sd }).doSave rid).emit
    (.transferComplete rid a.name)

theorem sync_assets_go_success_step (env : RunEnv) (rid : Nat) (sid tag : String)
    (now : Nat) (snap : List TargetAsset) (a : SourceAsset)
    (rest : List SourceAsset) (has : Bool) (st : RunState) (s : Nat)
    (u : Option Int)
    (hns : need_sync ((alookup sid st.synced_data.assets).getD []) a
      (dict_by_name snap a.name) = true)
    (hdl : env.download_ok a.browser_download_url = true)
    (h0 : env.upload tag a.name 0 = .ok s u)
    (hrc : 1 ≤ env.retry_count) :
    sync_assets_go env rid sid tag now snap (a :: rest) has st =
      sync_assets_go env rid sid tag now snap rest true
        (asset_success_state rid sid tag now a s u st) := by
  simp only [sync_assets_go, RunState.emit_synced_data]
  rw [if_pos hns, if_pos hdl, retry_upload_success0 env tag a.name _ s u h0 hrc]
  rfl

/-- Asset `a` is mirrored: ledger key present, live copy of that name
matches in size and is not older. -/
def asset_done (sid : String) (a : SourceAsset) (sd : SyncedData)
    (listing : List TargetAsset) : Prop :=
  (alookup (asset_key a.name a.size)
    ((alookup sid sd.assets).getD [])).isSome = true ∧
  ∃ t, dict_by_name listing a.name = some t ∧ a.size = t.size ∧
    time_gt a.updated_at t.updated_at = false

theorem sync_assets_go_establishes (env : RunEnv) (rid : Nat) (sid tag : String)
    (now : Nat) (snap : List TargetAsset) (hrc : 1 ≤ env.retry_count) :
    ∀ (l : List SourceAsset) (has : Bool) (st : RunState)
      (L : List TargetAsset),
      alookup tag st.target = some L →
      (l.map SourceAsset.name).Nodup →
      (∀ a ∈ l, env.download_ok a.browser_download_url = true ∧
        upload_ok_faithful (env.upload tag a.name 0) a = true) →
      (∀ a ∈ l, dict_by_name L a.name = dict_by_name snap a.name) →
      ∃ L2,
        alookup tag (sync_assets_go env rid sid tag now snap l has
          st).2.target = some L2 ∧
        (∀ n, n ∉ l.map SourceAsset.name →
          dict_by_name L2 n = dict_by_name L n) ∧
        (∀ a ∈ l, asset_done sid a
          (sync_assets_go env rid sid tag now snap l has st).2.synced_data L2) ∧
        (∀ k, (alookup k ((alookup sid st.synced_data.assets).getD
            [])).isSome = true →
          (alookup k ((alookup sid (sync_assets_go env rid sid tag now snap l
            has st).2.synced_data.assets).getD [])).isSome = true) := by
  intro l
  induction l with
  | nil =>
    intro has st L hL _ _ _
    exact ⟨L, hL, fun n _ => rfl, fun a ha => absurd ha (List.not_mem_nil a),
      fun k hk => hk⟩
  | cons a rest ih =>
    intro has st L hL hnd henv hsnap
    have hndc : a.name ∉ rest.map SourceAsset.name ∧
        (rest.map SourceAsset.name).Nodup := by
      rw [List.map_cons] at hnd
      exact ⟨(List.nodup_cons.mp hnd).1, (List.nodup_cons.mp hnd).2⟩
    have hLl : (alookup tag st.target).getD [] = L := by rw [hL]; rfl
    by_cases hns : need_sync ((alookup sid st.synced_data.assets).getD [])
        a (dict_by_name snap a.name) = true
    · obtain ⟨s, u, h0, hs, htg⟩ :=
        upload_ok_faithful_elim (henv a (List.mem_cons_self _ _)).2
      rw [sync_assets_go_success_step env rid sid tag now snap a rest has st
        s u hns (henv a (List.mem_cons_self _ _)).1 h0 hrc]
      have hTstep : (asset_success_state rid sid tag now a s u st).target =
          aset tag (delete_existing_asset a.name
            ((alookup tag st.target).getD []) ++ [⟨a.name, s, u⟩])
            st.target := rfl
      have hAstep : (asset_success_state rid sid tag now a s u
          st).synced_data.assets =
          aset sid (aset (asset_key a.name a.size)
            (record_of_upload a.name ⟨a.name, s, u⟩ now)
            ((alookup sid st.synced_data.assets).getD []))
            st.synced_data.assets := rfl
      obtain ⟨L2, k1, k2, k3, k4⟩ := ih true
        (asset_success_state rid sid tag now a s u st)
        (delete_existing_asset a.name ((alookup tag st.target).getD []) ++
          [⟨a.name, s, u⟩])
        (by rw [hTstep]; exact alookup_aset_self _ _ _)
        hndc.2
        (fun x hx => henv x (List.mem_cons_of_mem _ hx))
        (fun x hx => by
          have hne : a.name ≠ x.name := by
            intro he
            exact hndc.1 (he ▸ List.mem_map_of_mem SourceAsset.name hx)
          rw [dict_by_name_append_single, if_neg hne,
            dict_by_name_delete_ne x.name a.name hne, hLl]
          exact hsnap x (List.mem_cons_of_mem _ hx))
      refine ⟨L2, k1, ?_, ?_, ?_⟩
      · intro n hn
        have hn1 : n ∉ rest.map SourceAsset.name := by
          intro hmem
          exact hn (List.mem_cons_of_mem _ hmem)
        have hn0 : a.name ≠ n := by
          intro he
          rw [List.map_cons] at hn
          exact hn (he ▸ List.mem_cons_self _ _)
        rw [k2 n hn1, dict_by_name_append_single, if_neg hn0,
          dict_by_name_delete_ne n a.name hn0, hLl]
      · intro x hx
        rcases List.mem_cons.mp hx with rfl | hx2
        · constructor
          · refine k4 (asset_key x.name x.size) ?_
            rw [hAstep, alookup_aset_self]
            simp only [Option.getD_some]
            rw [alookup_aset_self]
            rfl
          · refine ⟨⟨x.name, s, u⟩, ?_, by rw [hs], htg⟩
            rw [k2 x.name hndc.1, dict_by_name_append_single, if_pos rfl]
        · exact k3 x hx2
      · intro k hk
        refine k4 k ?_
        rw [hAstep, alookup_aset_self]
        simp only [Option.getD_some]
        exact alookup_aset_isSome_mono k (asset_key a.name a.size) _ _ hk
    · have hns0 : need_sync ((alookup sid st.synced_data.assets).getD [])
          a (dict_by_name snap a.name) = false := by
        simpa using hns
      have hstep : sync_assets_go env rid sid tag now snap (a :: rest) has st =
          sync_assets_go env rid sid tag now snap rest has
            (st.emit (.assetArtifact rid a.name)) := by
        simp only [sync_assets_go, RunState.emit_synced_data]
        rw [if_neg hns]
      rw [hstep]
      obtain ⟨hkey, t, ht, hsz, htm⟩ := need_sync_false_elim _ a _ hns0
      obtain ⟨L2, k1, k2, k3, k4⟩ := ih has (st.emit (.assetArtifact rid a.name))
        L (by rw [RunState.emit_target]; exact hL) hndc.2
        (fun x hx => henv x (List.mem_cons_of_mem _ hx))
        (fun x hx => hsnap x (List.mem_cons_of_mem _ hx))
      refine ⟨L2, k1, ?_, ?_, ?_⟩
      · intro n hn
        refine k2 n (fun hmem => hn ?_)
        rw [List.map_cons]
        exact List.mem_cons_of_mem _ hmem
      · intro x hx
        rcases List.mem_cons.mp hx with rfl | hx2
        · constructor
          · exact k4 _ hkey
          · refine ⟨t, ?_, hsz, htm⟩
            rw [k2 x.name hndc.1, hsnap x (List.mem_cons_self _ _)]
            exact ht
        · exact k3 x hx2
      · intro k hk
        exact k4 k hk

/-- The state reached when a target-side archive copy already exists but the
ledger entry is missing: the entry is backfilled and a save fires. -/
def code_record_state (rid : Nat) (tag : String) (now : Nat)
    (filename : String) (st : RunState) : RunState :=
  let st1 := st.emit (.codeArtifact rid filename)
  let cm := (alookup tag st.synced_data.source_codes).getD []
  let sd := { st1.synced_data with
    source_codes := aset tag (aset filename ⟨true, now⟩ cm)
      st1.synced_data.source_codes }
  ({ st1 with synced_data := sd }).doSave rid

/-- The state reached after one successful first-attempt archive transfer. -/
def code_success_state (rid : Nat) (tag : String) (now : Nat)
    (filename : String) (s : Nat) (u : Option Int) (st : RunState) : RunState :=
  let st1 := st.emit (.codeArtifact rid filename)
  let st2 := { st1 with transfers := st1.transfers + 1 }
  let nl := delete_existing_asset filename ((alookup tag st.target).getD []) ++
    [⟨filename, s, u⟩]
  let st3 := { st2 with target := aset tag nl st2.target }
  let cm := (alookup tag st.synced_data.source_codes).getD []
  let sd := { st3.synced_data with
    source_codes := aset tag (aset filename ⟨true, now⟩ cm)
      st3.synced_data.source_codes }
  (({ st3 with synced_data := sd }).doSave rid).emit
    (.transferComplete rid filename)

theorem sync_code_go_present_step (env : RunEnv) (rid : Nat) (tag : String)
    (now : Nat) (existing : List String) (filename url : String)
    (rest : List (String × String)) (has : Bool) (st : RunState)
    (hex : filename ∈ existing)
    (hcm : (alookup filename
      ((alookup tag st.synced_data.source_codes).getD [])).isSome = true) :
    sync_code_go env rid tag now existing ((filename, url) :: rest) has st =
      sync_code_go env rid tag now existing rest has
        (st.emit (.codeArtifact rid filename)) := by
  simp only [sync_code_go, RunState.emit_synced_data]
  rw [if_pos hex, if_pos hcm]

theorem sync_code_go_record_step (env : RunEnv) (rid : Nat) (tag : String)
    (now : Nat) (existing : List String) (filename url : String)
    (rest : List (String × String)) (has : Bool) (st : RunState)
    (hex : filename ∈ existing)
    (hcm : (alookup filename
      ((alookup tag st.synced_data.source_codes).getD [])).isSome = false) :
    sync_code_go env rid tag now existing ((filename, url) :: rest) has st =
      sync_code_go env rid tag now existing rest has
        (code_record_state rid tag now filename st) := by
  simp only [sync_code_go, RunState.emit_synced_data]
  rw [if_pos hex, if_neg (by rw [hcm]; exact Bool.false_ne_true)]
  rfl

theorem sync_code_go_success_step (env : RunEnv) (rid : Nat) (tag : String)
    (now : Nat) (existing : List String) (filename url : String)
    (rest : List (String × String)) (has : Bool) (st : RunState)
    (s : Nat) (u : Option Int)
    (hex : filename ∉ existing)
    (hdl : env.download_ok url = true)
    (h0 : env.upload tag filename 0 = .ok s u)
    (hrc : 1 ≤ env.retry_count) :
    sync_code_go env rid tag now existing ((filename, url) :: rest) has st =
      sync_code_go env rid tag now existing rest true
        (code_success_state rid tag now filename s u st) := by
  simp only [sync_code_go, RunState.emit_synced_data]
  rw [if_neg hex, if_pos hdl,
    retry_upload_success0 env tag filename _ s u h0 hrc]
  rfl

theorem sync_code_go_establishes (env : RunEnv) (rid : Nat) (tag : String)
    (now : Nat) (existing : List String) (hrc : 1 ≤ env.retry_count) :
    ∀ (l : List (String × String)) (has : Bool) (st : RunState)
      (L : List TargetAsset),
      alookup tag st.target = some L →
      (l.map Prod.fst).Nodup →
      (∀ p ∈ l, env.download_ok p.2 = true ∧
        ∃ s u, env.upload tag p.1 0 = .ok s u) →
      (∀ p ∈ l, p.1 ∈ existing → (dict_by_name L p.1).isSome = true) →
      ∃ L2,
        alookup tag (sync_code_go env rid tag now existing l has
          st).2.target = some L2 ∧
        (∀ n, n ∉ l.map Prod.fst → dict_by_name L2 n = dict_by_name L n) ∧
        (∀ p ∈ l, (dict_by_name L2 p.1).isSome = true) ∧
        (∀ p ∈ l, (alookup p.1 ((alookup tag (sync_code_go env rid tag now
          existing l has st).2.synced_data.source_codes).getD
            [])).isSome = true) ∧
        (∀ f, (alookup f ((alookup tag
            st.synced_data.source_codes).getD [])).isSome = true →
          (alookup f ((alookup tag (sync_code_go env rid tag now existing l
            has st).2.synced_data.source_codes).getD [])).isSome = true) := by
  intro l
  induction l with
  | nil =>
    intro has st L hL _ _ _
    exact ⟨L, hL, fun n _ => rfl, fun p hp => absurd hp (List.not_mem_nil p),
      fun p hp => absurd hp (List.not_mem_nil p), fun f hf => hf⟩
  | cons fu rest ih =>
    intro has st L hL hnd henv hexL
    obtain ⟨filename, url⟩ := fu
    have hndc : filename ∉ rest.map Prod.fst ∧ (rest.map Prod.fst).Nodup := by
      rw [List.map_cons] at hnd
      exact ⟨(List.nodup_cons.mp hnd).1, (List.nodup_cons.mp hnd).2⟩
    have hLl : (alookup tag st.target).getD [] = L := by rw [hL]; rfl
    by_cases hex : filename ∈ existing
    · by_cases hcm : (alookup filename
          ((alookup tag st.synced_data.source_codes).getD [])).isSome = true
      · rw [sync_code_go_present_step env rid tag now existing filename url
          rest has st hex hcm]
        obtain ⟨L2, k1, k2, k3, k4, k5⟩ := ih has
          (st.emit (.codeArtifact rid filename)) L
          (by rw [RunState.emit_target]; exact hL) hndc.2
          (fun p hp => henv p (List.mem_cons_of_mem _ hp))
          (fun p hp => hexL p (List.mem_cons_of_mem _ hp))
        refine ⟨L2, k1, ?_, ?_, ?_, ?_⟩
        · intro n hn
          refine k2 n (fun hmem => hn ?_)
          rw [List.map_cons]
          exact List.mem_cons_of_mem _ hmem
        · intro p hp
          rcases List.mem_cons.mp hp with rfl | hp2
          · show (dict_by_name L2 filename).isSome = true
            rw [k2 filename hndc.1]
            exact hexL (filename, url) (List.mem_cons_self _ _) hex
          · exact k3 p hp2
        · intro p hp
          rcases List.mem_cons.mp hp with rfl | hp2
          · exact k5 filename hcm
          · exact k4 p hp2
        · exact k5
      · have hcm0 : (alookup filename
            ((alookup tag st.synced_data.source_codes).getD [])).isSome =
              false := by
          simpa using hcm
        rw [sync_code_go_record_step env rid tag now existing filename url
          rest has st hex hcm0]
        have hSC : alookup tag (code_record_state rid tag now filename
            st).synced_data.source_codes =
            some (aset filename ⟨true, now⟩
              ((alookup tag st.synced_data.source_codes).getD [])) :=
          alookup_aset_self _ _ _
        obtain ⟨L2, k1, k2, k3, k4, k5⟩ := ih has
          (code_record_state rid tag now filename st) L
          (by
            show alookup tag st.target = some L
            exact hL)
          hndc.2
          (fun p hp => henv p (List.mem_cons_of_mem _ hp))
          (fun p hp => hexL p (List.mem_cons_of_mem _ hp))
        refine ⟨L2, k1, ?_, ?_, ?_, ?_⟩
        · intro n hn
          refine k2 n (fun hmem => hn ?_)
          rw [List.map_cons]
          exact List.mem_cons_of_mem _ hmem
        · intro p hp
          rcases List.mem_cons.mp hp with rfl | hp2
          · show (dict_by_name L2 filename).isSome = true
            rw [k2 filename hndc.1]
            exact hexL (filename, url) (List.mem_cons_self _ _) hex
          · exact k3 p hp2
        · intro p hp
          rcases List.mem_cons.mp hp with rfl | hp2
          · refine k5 filename ?_
            rw [hSC]
            simp only [Option.getD_some]
            rw [alookup_aset_self]
            rfl
          · exact k4 p hp2
        · intro f hf
          refine k5 f ?_
          rw [hSC]
          simp only [Option.getD_some]
          exact alookup_aset_isSome_mono f filename _ _ hf
    · obtain ⟨hdl, s, u, h0⟩ :
          env.download_ok url = true ∧
            ∃ s u, env.upload tag filename 0 = .ok s u := by
        have h := henv (filename, url) (List.mem_cons_self _ _)
        exact ⟨h.1, h.2⟩
      rw [sync_code_go_success_step env rid tag now existing filename url
        rest has st s u hex hdl h0 hrc]
      have hT : (code_success_state rid tag now filename s u st).target =
          aset tag (delete_existing_asset filename
            ((alookup tag st.target).getD []) ++ [⟨filename, s, u⟩])
            st.target := rfl
      have hSC : alookup tag (code_success_state rid tag now filename s u
          st).synced_data.source_codes =
          some (aset filename ⟨true, now⟩
            ((alookup tag st.synced_data.source_codes).getD [])) :=
        alookup_aset_self _ _ _
      obtain ⟨L2, k1, k2, k3, k4, k5⟩ := ih true
        (code_success_state rid tag now filename s u st)
        (delete_existing_asset filename ((alookup tag st.target).getD []) ++
          [⟨filename, s, u⟩])
        (by rw [hT]; exact alookup_aset_self _ _ _)
        hndc.2
        (fun p hp => henv p (List.mem_cons_of_mem _ hp))
        (fun p hp hpex => by
          have hne : filename ≠ p.1 := by
            intro he
            exact hndc.1 (he ▸ List.mem_map_of_mem Prod.fst hp)
          rw [dict_by_name_append_single]
          show (if filename = p.1 then some ⟨filename, s, u⟩ else
            dict_by_name (delete_existing_asset filename
              ((alookup tag st.target).getD [])) p.1).isSome = true
          rw [if_neg hne, dict_by_name_delete_ne p.1 filename hne, hLl]
          exact hexL p (List.mem_cons_of_mem _ hp) hpex)
      refine ⟨L2, k1, ?_, ?_, ?_, ?_⟩
      · intro n hn
        have hn1 : n ∉ rest.map Prod.fst := by
          intro hmem
          rw [List.map_cons] at hn
          exact hn (List.mem_cons_of_mem _ hmem)
        have hn0 : filename ≠ n := by
          intro he
          rw [List.map_cons] at hn
          exact hn (he ▸ List.mem_cons_self _ _)
        rw [k2 n hn1, dict_by_name_append_single]
        show (if filename = n then some ⟨filename, s, u⟩ else
          dict_by_name (delete_existing_asset filename
            ((alookup tag st.target).getD [])) n) = dict_by_name L n
        rw [if_neg hn0, dict_by_name_delete_ne n filename hn0, hLl]
      · intro p hp
        rcases List.mem_cons.mp hp with rfl | hp2
        · show (dict_by_name L2 filename).isSome = true
          rw [k2 filename hndc.1, dict_by_name_append_single]
          show (if filename = filename then some ⟨filename, s, u⟩ else
            dict_by_name (delete_existing_asset filename
              ((alookup tag st.target).getD [])) filename).isSome = true
          rw [if_pos rfl]
          rfl
        · exact k3 p hp2
      · intro p hp
        rcases List.mem_cons.mp hp with rfl | hp2
        · refine k5 filename ?_
          rw [hSC]
          simp only [Option.getD_some]
          rw [alookup_aset_self]
          rfl
        · exact k4 p hp2
      · intro f hf
        refine k5 f ?_
        rw [hSC]
        simp only [Option.getD_some]
        exact alookup_aset_isSome_mono f filename _ _ hf

theorem sync_assets_go_sid_isSome (env : RunEnv) (rid : Nat) (sid tag : String)
    (now : Nat) (snap : List TargetAsset) :
    ∀ (l : List SourceAsset) (has : Bool) (st : RunState),
      (alookup sid st.synced_data.assets).isSome = true →
      (alookup sid (sync_assets_go env rid sid tag now snap l has
        st).2.synced_data.assets).isSome = true := by
  intro l
  induction l with
  | nil => intro has st h; exact h
  | cons a rest ih =>
    intro has st h
    simp only [sync_assets_go, RunState.emit_synced_data]
    by_cases hns : need_sync ((alookup sid st.synced_data.assets).getD [])
        a (dict_by_name snap a.name) = true
    · rw [if_pos hns]
      by_cases hdl : env.download_ok a.browser_download_url = true
      · rw [if_pos hdl]
        split
        · refine ih true _ ?_
          exact alookup_aset_isSome_mono sid sid _ _ h
        · exact ih has _ h
      · rw [if_neg hdl]
        exact ih has _ h
    · rw [if_neg hns]
      exact ih has _ h

theorem sync_source_code_establishes (env : RunEnv) (owner repo : String)
    (rid : Nat) (now : Nat) (tag : String) (st : RunState)
    (L : List TargetAsset) (hrc : 1 ≤ env.retry_count)
    (hL : alookup tag st.target = some L)
    (henv : ∀ p ∈ source_code_files owner repo tag,
      env.download_ok p.2 = true ∧ ∃ s u, env.upload tag p.1 0 = .ok s u) :
    ∃ L2,
      alookup tag (sync_source_code env owner repo rid now tag
        st).2.target = some L2 ∧
      (∀ n, n ∉ source_code_filenames tag →
        dict_by_name L2 n = dict_by_name L n) ∧
      (∀ f ∈ source_code_filenames tag, (dict_by_name L2 f).isSome = true) ∧
      (∃ cm, alookup tag (sync_source_code env owner repo rid now tag
          st).2.synced_data.source_codes = some cm ∧
        ∀ f ∈ source_code_filenames tag, (alookup f cm).isSome = true) ∧
      (sync_source_code env owner repo rid now tag st).2.synced_data.assets =
        st.synced_data.assets ∧
      (sync_source_code env owner repo rid now tag st).2.synced_data.releases =
        st.synced_data.releases := by
  have hLl : (alookup tag st.target).getD [] = L := by rw [hL]; rfl
  have hcall : sync_source_code env owner repo rid now tag st =
      sync_code_go env rid tag now
        (((alookup tag st.target).getD []).map TargetAsset.name)
        (source_code_files owner repo tag) false
        ({ st with synced_data := { st.synced_data with
          source_codes := asetdefault tag [] st.synced_data.source_codes } }) :=
    rfl
  obtain ⟨L2, k1, k2, k3, k4, k5⟩ := sync_code_go_establishes env rid tag now
    (((alookup tag st.target).getD []).map TargetAsset.name) hrc
    (source_code_files owner repo tag) false
    ({ st with synced_data := { st.synced_data with
      source_codes := asetdefault tag [] st.synced_data.source_codes } })
    L hL
    (by rw [source_code_files_names]; exact source_code_filenames_nodup tag)
    henv
    (fun p hp hpex => by
      rw [hLl] at hpex
      exact (mem_names_iff_dict L p.1).mp hpex)
  refine ⟨L2, by rw [hcall]; exact k1, ?_, ?_, ?_, ?_, ?_⟩
  · intro n hn
    refine k2 n ?_
    rw [source_code_files_names]
    exact hn
  · intro f hf
    rw [← source_code_files_names owner repo tag] at hf
    obtain ⟨p, hp, hpf⟩ := List.mem_map.mp hf
    rw [← hpf]
    exact k3 p hp
  · have hzip := k4 _ (List.mem_cons_self (("SourceCode_" ++ tag ++ ".zip",
      "https://github.com/" ++ owner ++ "/" ++ repo ++ "/archive/refs/tags/"
        ++ tag ++ ".zip") : String × String) _)
    rw [hcall]
    cases hout : alookup tag (sync_code_go env rid tag now
        (((alookup tag st.target).getD []).map TargetAsset.name)
        (source_code_files owner repo tag) false
        ({ st with synced_data := { st.synced_data with
          source_codes := asetdefault tag []
            st.synced_data.source_codes } })).2.synced_data.source_codes with
    | none =>
      rw [hout] at hzip
      simp only [Option.getD_none] at hzip
      cases hzip
    | some cm =>
      refine ⟨cm, rfl, ?_⟩
      intro f hf
      rw [← source_code_files_names owner repo tag] at hf
      obtain ⟨p, hp, hpf⟩ := List.mem_map.mp hf
      have hk := k4 p hp
      rw [hout] at hk
      simp only [Option.getD_some] at hk
      rw [← hpf]
      exact hk
  · rw [hcall]
    exact (sync_code_go_assets_eq env rid tag now _ _ _ _).1
  · rw [hcall]
    exact (sync_code_go_assets_eq env rid tag now _ _ _ _).2

theorem sync_release_assets_establishes (env : RunEnv) (now : Nat)
    (r : SourceRelease) (st : RunState) (L : List TargetAsset)
    (hrc : 1 ≤ env.retry_count)
    (hL : alookup r.tag_name st.target = some L)
    (hnd : (r.assets.map SourceAsset.name).Nodup)
    (henv : ∀ a ∈ r.assets, env.download_ok a.browser_download_url = true ∧
      upload_ok_faithful (env.upload r.tag_name a.name 0) a = true) :
    ∃ L2,
      alookup r.tag_name (sync_release_assets env now r st).2.target =
        some L2 ∧
      (∀ n, n ∉ r.assets.map SourceAsset.name →
        dict_by_name L2 n = dict_by_name L n) ∧
      (∃ am, alookup (toString r.id) (sync_release_assets env now r
          st).2.synced_data.assets = some am ∧
        ∀ a ∈ r.assets, (alookup (asset_key a.name a.size) am).isSome = true ∧
          ∃ t, dict_by_name L2 a.name = some t ∧ a.size = t.size ∧
            time_gt a.updated_at t.updated_at = false) ∧
      (sync_release_assets env now r st).2.synced_data.source_codes =
        st.synced_data.source_codes ∧
      (sync_release_assets env now r st).2.synced_data.releases =
        st.synced_data.releases := by
  have hLl : (alookup r.tag_name st.target).getD [] = L := by rw [hL]; rfl
  have hcall : sync_release_assets env now r st =
      sync_assets_go env r.id (toString r.id) r.tag_name now
        ((alookup r.tag_name st.target).getD []) r.assets false
        ({ st with synced_data := { st.synced_data with
          assets := asetdefault (toString r.id) []
            st.synced_data.assets } }) := rfl
  obtain ⟨L2, k1, k2, k3, k4⟩ := sync_assets_go_establishes env r.id
    (toString r.id) r.tag_name now
    ((alookup r.tag_name st.target).getD []) hrc r.assets false
    ({ st with synced_data := { st.synced_data with
      assets := asetdefault (toString r.id) [] st.synced_data.assets } })
    L hL hnd henv (fun a _ => by rw [hLl])
  have houter := sync_assets_go_sid_isSome env r.id (toString r.id) r.tag_name
    now ((alookup r.tag_name st.target).getD []) r.assets false
    ({ st with synced_data := { st.synced_data with
      assets := asetdefault (toString r.id) [] st.synced_data.assets } })
    (alookup_asetdefault_self_isSome (toString r.id) [] st.synced_data.assets)
  refine ⟨L2, by rw [hcall]; exact k1, k2, ?_, ?_, ?_⟩
  · rw [hcall]
    cases hout : alookup (toString r.id) (sync_assets_go env r.id
        (toString r.id) r.tag_name now
        ((alookup r.tag_name st.target).getD []) r.assets false
        ({ st with synced_data := { st.synced_data with
          assets := asetdefault (toString r.id) []
            st.synced_data.assets } })).2.synced_data.assets with
    | none =>
      rw [hout] at houter
      cases houter
    | some am =>
      refine ⟨am, rfl, ?_⟩
      intro a ha
      obtain ⟨hk, t, ht, hsz, htm⟩ := k3 a ha
      rw [hout] at hk
      simp only [Option.getD_some] at hk
      exact ⟨hk, t, ht, hsz, htm⟩
  · rw [hcall]
    have hfr := (sync_assets_go_frame env r.id (toString r.id) r.tag_name now
      ((alookup r.tag_name st.target).getD []) r.assets false
      ({ st with synced_data := { st.synced_data with
        assets := asetdefault (toString r.id) []
          st.synced_data.assets } })).2.2.1
    rw [hfr]
  · rw [hcall]
    have hfr := (sync_assets_go_frame env r.id (toString r.id) r.tag_name now
      ((alookup r.tag_name st.target).getD []) r.assets false
      ({ st with synced_data := { st.synced_data with
        assets := asetdefault (toString r.id) []
          st.synced_data.assets } })).2.2.2
    rw [hfr]

theorem get_or_create_establishes (env : RunEnv) (r : SourceRelease)
    (st : RunState) (hck : env.create_ok r.tag_name = true) :
    (get_or_create_release env r st).1 = true ∧
    (∃ L0, alookup r.tag_name (get_or_create_release env r st).2.target =
      some L0) ∧
    (get_or_create_release env r st).2.synced_data = st.synced_data := by
  unfold get_or_create_release
  by_cases hsome : (alookup r.tag_name st.target).isSome = true
  · rw [if_pos hsome]
    exact ⟨rfl, Option.isSome_iff_exists.mp hsome, rfl⟩
  · rw [if_neg hsome, if_pos hck]
    exact ⟨rfl, ⟨[], alookup_aset_self _ _ _⟩, rfl⟩

theorem process_release_establishes (env : RunEnv) (owner repo : String)
    (now : Nat) (r : SourceRelease) (st : RunState)
    (hrc : 1 ≤ env.retry_count)
    (hck : env.create_ok r.tag_name = true)
    (hnd : (source_code_filenames r.tag_name ++
      r.assets.map SourceAsset.name).Nodup)
    (henvc : ∀ p ∈ source_code_files owner repo r.tag_name,
      env.download_ok p.2 = true ∧
        ∃ s u, env.upload r.tag_name p.1 0 = .ok s u)
    (henva : ∀ a ∈ r.assets, env.download_ok a.browser_download_url = true ∧
      upload_ok_faithful (env.upload r.tag_name a.name 0) a = true) :
    release_fully_synced r (process_release env owner repo now r st).synced_data
      (process_release env owner repo now r st).target := by
  obtain ⟨hg1, ⟨L0, hgL⟩, hgsd⟩ := get_or_create_establishes env r
    (st.emit (.beginRelease r.id r.created_at)) hck
  simp only [process_release]
  rw [if_pos hg1]
  set g := get_or_create_release env r (st.emit (.beginRelease r.id r.created_at))
    with hgdef
  set pc := sync_source_code env owner repo r.id now r.tag_name g.2 with hpcdef
  set pa := sync_release_assets env now r pc.2 with hpadef
  obtain ⟨Lc, c1, c2, c3, ⟨cm, ccm1, ccm2⟩, c5, c6⟩ :=
    sync_source_code_establishes env owner repo r.id now r.tag_name g.2 L0
      hrc hgL henvc
  rw [← hpcdef] at c1 ccm1 c5 c6
  obtain ⟨La, a1, a2, ⟨am, am1, am2⟩, a4, a5⟩ :=
    sync_release_assets_establishes env now r pc.2 Lc hrc c1
      (List.nodup_append.mp hnd).2.1 henva
  rw [← hpadef] at a1 am1 a4 a5
  have hT : (if (pc.1 || pa.1) = true
      then ((({ pa.2 with synced_data := { pa.2.synced_data with
        releases := aset (toString r.id) ⟨r.tag_name, now⟩
          pa.2.synced_data.releases } } : RunState).doSave r.id).emit
            (.commitLedger r.id))
      else (({ pa.2 with synced_data := { pa.2.synced_data with
        releases := aset (toString r.id) ⟨r.tag_name, now⟩
          pa.2.synced_data.releases } } : RunState).doSave r.id)).target =
      pa.2.target := by
    split <;> rfl
  have hSD : (if (pc.1 || pa.1) = true
      then ((({ pa.2 with synced_data := { pa.2.synced_data with
        releases := aset (toString r.id) ⟨r.tag_name, now⟩
          pa.2.synced_data.releases } } : RunState).doSave r.id).emit
            (.commitLedger r.id))
      else (({ pa.2 with synced_data := { pa.2.synced_data with
        releases := aset (toString r.id) ⟨r.tag_name, now⟩
          pa.2.synced_data.releases } } : RunState).doSave r.id)).synced_data =
      { pa.2.synced_data with
        releases := aset (toString r.id) ⟨r.tag_name, now⟩
          pa.2.synced_data.releases } := by
    split <;> rfl
  rw [hT, hSD]
  refine ⟨La, a1, ⟨⟨r.tag_name, now⟩, ?_, rfl⟩, ⟨cm, ?_, ?_⟩, ⟨am, ?_, am2⟩⟩
  · show alookup (toString r.id) (aset (toString r.id) ⟨r.tag_name, now⟩
      pa.2.synced_data.releases) = some ⟨r.tag_name, now⟩
    exact alookup_aset_self _ _ _
  · show alookup r.tag_name pa.2.synced_data.source_codes = some cm
    rw [a4]
    exact ccm1
  · intro f hf
    have hfna : f ∉ r.assets.map SourceAsset.name :=
      fun hmem => (List.nodup_append.mp hnd).2.2 hf hmem
    exact ⟨by rw [a2 f hfna]; exact c3 f hf, ccm2 f hf⟩
  · show alookup (toString r.id) pa.2.synced_data.assets = some am
    exact am1

theorem process_release_preserves_synced (env : RunEnv) (owner repo : String)
    (now : Nat) (r r2 : SourceRelease) (st : RunState)
    (htag : r2.tag_name ≠ r.tag_name)
    (hid : toString r2.id ≠ toString r.id)
    (h : release_fully_synced r st.synced_data st.target) :
    release_fully_synced r
      (process_release env owner repo now r2 st).synced_data
      (process_release env owner repo now r2 st).target := by
  obtain ⟨f1, f2, f3, f4⟩ := process_release_frame env owner repo now r2 st
  exact release_fully_synced_frame r st.synced_data _ st.target _
    (f1 r.tag_name (Ne.symm htag)) (f4 (toString r.id) (Ne.symm hid))
    (f2 r.tag_name (Ne.symm htag)) (f3 (toString r.id) (Ne.symm hid)) h

theorem run_fold_preserves_synced (env : RunEnv) (owner repo : String)
    (now : Nat) (r : SourceRelease) :
    ∀ (l : List SourceRelease) (st : RunState),
      (∀ r2 ∈ l, r2.tag_name ≠ r.tag_name ∧ toString r2.id ≠ toString r.id) →
      release_fully_synced r st.synced_data st.target →
      release_fully_synced r
        (l.foldl (fun st x => process_release env owner repo now x st)
          st).synced_data
        (l.foldl (fun st x => process_release env owner repo now x st)
          st).target := by
  intro l
  induction l with
  | nil => intro st _ h; exact h
  | cons r2 rest ih =>
    intro st hne h
    rw [List.foldl_cons]
    exact ih _ (fun x hx => hne x (List.mem_cons_of_mem _ hx))
      (process_release_preserves_synced env owner repo now r r2 st
        (hne r2 (List.mem_cons_self _ _)).1 (hne r2 (List.mem_cons_self _ _)).2 h)

theorem run_fold_establishes (env : RunEnv) (owner repo : String) (now : Nat)
    (hrc : 1 ≤ env.retry_count) :
    ∀ (l : List SourceRelease) (st : RunState),
      List.Pairwise (fun r1 r2 => r1.tag_name ≠ r2.tag_name ∧
        toString r1.id ≠ toString r2.id) l →
      (∀ r ∈ l, env.create_ok r.tag_name = true) →
      (∀ r ∈ l, (source_code_filenames r.tag_name ++
        r.assets.map SourceAsset.name).Nodup) →
      (∀ r ∈ l, ∀ p ∈ source_code_files owner repo r.tag_name,
        env.download_ok p.2 = true ∧
          ∃ s u, env.upload r.tag_name p.1 0 = .ok s u) →
      (∀ r ∈ l, ∀ a ∈ r.assets,
        env.download_ok a.browser_download_url = true ∧
          upload_ok_faithful (env.upload r.tag_name a.name 0) a = true) →
      ∀ r ∈ l, release_fully_synced r
        (l.foldl (fun st x => process_release env owner repo now x st)
          st).synced_data
        (l.foldl (fun st x => process_release env owner repo now x st)
          st).target := by
  intro l
  induction l with
  | nil => intro st _ _ _ _ _ r hr; exact absurd hr (List.not_mem_nil r)
  | cons r0 rest ih =>
    intro st hpw hck hnd henvc henva r hr
    rw [List.foldl_cons]
    rcases List.mem_cons.mp hr with rfl | hr2
    · refine run_fold_preserves_synced env owner repo now r rest _
        (fun x hx => ⟨Ne.symm ((List.pairwise_cons.mp hpw).1 x hx).1,
          Ne.symm ((List.pairwise_cons.mp hpw).1 x hx).2⟩) ?_
      exact process_release_establishes env owner repo now r st hrc
        (hck r (List.mem_cons_self _ _)) (hnd r (List.mem_cons_self _ _))
        (henvc r (List.mem_cons_self _ _)) (henva r (List.mem_cons_self _ _))
    · exact ih (process_release env owner repo now r0 st)
        (List.pairwise_cons.mp hpw).2
        (fun x hx => hck x (List.mem_cons_of_mem _ hx))
        (fun x hx => hnd x (List.mem_cons_of_mem _ hx))
        (fun x hx => henvc x (List.mem_cons_of_mem _ hx))
        (fun x hx => henva x (List.mem_cons_of_mem _ hx))
        r hr2

/-- Source-data sanity for a run: pairwise distinct tags and string ids,
and within each release no name collision among the two archive filenames
and the binary asset names. -/
def world_ok (l : List SourceRelease) : Prop :=
  List.Pairwise (fun r1 r2 => r1.tag_name ≠ r2.tag_name ∧
    toString r1.id ≠ toString r2.id) l ∧
  ∀ r ∈ l, (source_code_filenames r.tag_name ++
    r.assets.map SourceAsset.name).Nodup

/-- The environment lets the first run fully succeed: at least one upload
attempt is allowed, release creation succeeds, and every download and
every first-attempt upload succeeds, the upload faithfully landing with
the source byte size and no strictly older timestamp. -/
def env_run_success (env : RunEnv) (owner repo : String)
    (l : List SourceRelease) : Prop :=
  1 ≤ env.retry_count ∧
  (∀ r ∈ l, env.create_ok r.tag_name = true) ∧
  (∀ r ∈ l, ∀ p ∈ source_code_files owner repo r.tag_name,
    env.download_ok p.2 = true ∧
      ∃ s u, env.upload r.tag_name p.1 0 = .ok s u) ∧
  (∀ r ∈ l, ∀ a ∈ r.assets,
    env.download_ok a.browser_download_url = true ∧
      upload_ok_faithful (env.upload r.tag_name a.name 0) a = true)

/-- Ledger equality up to fully-synced timestamps: asset and source-code
maps agree exactly, the release map agrees on keys and tags (only the
recorded `fully_synced` instants may differ). -/
def ledger_eq_mod_timestamps (sd1 sd2 : SyncedData) : Prop :=
  sd1.assets = sd2.assets ∧ sd1.source_codes = sd2.source_codes ∧
  releases_tags sd1.releases = releases_tags sd2.releases

/-- **C2.** Running the engine a second time against an unchanged source —
same releases, assets, sizes and timestamps — after a fully successful
first run performs zero additional transfers and leaves the ledger
unchanged except for the updated fully-synced timestamps, whatever
environment and clock the second run sees. -/
theorem second_run_idempotent (env1 env2 : RunEnv) (owner repo : String)
    (now1 now2 : Nat) (l : List SourceRelease) (sd0 : SyncedData)
    (t0 : List (String × List TargetAsset))
    (hw : world_ok l) (he : env_run_success env1 owner repo l) :
    (run_main env2 owner repo now2 l (init_run_state
      (run_main env1 owner repo now1 l (init_run_state sd0 t0)).synced_data
      (run_main env1 owner repo now1 l
        (init_run_state sd0 t0)).target)).transfers = 0 ∧
    ledger_eq_mod_timestamps
      (run_main env2 owner repo now2 l (init_run_state
        (run_main env1 owner repo now1 l (init_run_state sd0 t0)).synced_data
        (run_main env1 owner repo now1 l
          (init_run_state sd0 t0)).target)).synced_data
      (run_main env1 owner repo now1 l (init_run_state sd0 t0)).synced_data := by
  obtain ⟨hpw, hnd⟩ := hw
  obtain ⟨hrc, hck, henvc, henva⟩ := he
  have hperm : (sort_releases l).Perm l := List.perm_insertionSort releaseLE l
  have hpws : List.Pairwise (fun r1 r2 => r1.tag_name ≠ r2.tag_name ∧
      toString r1.id ≠ toString r2.id) (sort_releases l) :=
    (hperm.pairwise_iff (fun h => ⟨h.1.symm, h.2.symm⟩)).mpr hpw
  set st1 := run_main env1 owner repo now1 l (init_run_state sd0 t0) with hst1
  have hest : ∀ r ∈ sort_releases l,
      release_fully_synced r st1.synced_data st1.target := by
    intro r hr
    rw [hst1]
    exact run_fold_establishes env1 owner repo now1 hrc (sort_releases l)
      (init_run_state sd0 t0) hpws
      (fun x hx => hck x (hperm.mem_iff.mp hx))
      (fun x hx => hnd x (hperm.mem_iff.mp hx))
      (fun x hx => henvc x (hperm.mem_iff.mp hx))
      (fun x hx => henva x (hperm.mem_iff.mp hx))
      r hr
  obtain ⟨g1, g2, g3, g4, g5⟩ := run_fold_synced env2 owner repo now2
    (sort_releases l) (init_run_state st1.synced_data st1.target)
    (fun r hr => hest r hr)
    (hpws.imp (fun h => h.2))
  exact ⟨g5, g1, g2, g3⟩

/-- Concrete environment for the C2 witness: one retry, every download and
creation succeeds, every upload lands on the first attempt with size 5 and
no timestamp. -/
def witness_env : RunEnv :=
  ⟨1, fun _ _ _ => .ok 5 none, fun _ => true, fun _ => true⟩

/-- Concrete release for the C2 witness: one binary asset of size 5. -/
def witness_release : SourceRelease :=
  ⟨1, "v1", none, none, false, false, 0, [⟨10, "app.bin", 5, none, none, "u"⟩]⟩

theorem second_run_idempotent_witness :
    world_ok [witness_release] ∧
    env_run_success witness_env "o" "r" [witness_release] ∧
    (run_main witness_env "o" "r" 2 [witness_release] (init_run_state
      (run_main witness_env "o" "r" 1 [witness_release]
        (init_run_state empty_synced_data [])).synced_data
      (run_main witness_env "o" "r" 1 [witness_release]
        (init_run_state empty_synced_data [])).target)).transfers = 0 ∧
    ledger_eq_mod_timestamps
      (run_main witness_env "o" "r" 2 [witness_release] (init_run_state
        (run_main witness_env "o" "r" 1 [witness_release]
          (init_run_state empty_synced_data [])).synced_data
        (run_main witness_env "o" "r" 1 [witness_release]
          (init_run_state empty_synced_data [])).target)).synced_data
      (run_main witness_env "o" "r" 1 [witness_release]
        (init_run_state empty_synced_data [])).synced_data := by
  have hw : world_ok [witness_release] := by
    constructor
    · exact List.Pairwise.cons (fun y hy => absurd hy (List.not_mem_nil y))
        List.Pairwise.nil
    · decide
  have he : env_run_success witness_env "o" "r" [witness_release] := by
    refine ⟨Nat.le_refl 1, fun x hx => rfl,
      fun x hx p hp => ⟨rfl, 5, none, rfl⟩, fun x hx a ha => ⟨rfl, ?_⟩⟩
    rcases List.mem_singleton.mp hx with rfl
    rcases List.mem_singleton.mp ha with rfl
    rfl
  exact ⟨hw, he, second_run_idempotent witness_env witness_env "o" "r" 1 2
    [witness_release] empty_synced_data [] hw he⟩
